import Mathlib

/-!
Shallow embedding of the sorted skip-list container from
`src/include/container/nodes/node.h` (template `Container<T>` over `Node<T>`),
instantiated at `T = Int`.

Pointers are modelled as arena indices (`Nat`); the heap is a function
`Nat → SNode` together with an allocation counter `size`.  A null pointer is
modelled by `Option Nat` where it can occur in the source (the container's
`sentinel_node` after a move, and iterator cursors).  `destroy_and_deallocate_node`
is modelled by clearing the `alive` flag while retaining the node's memory, the
natural deterministic reading of freed-but-unwritten memory; this lets the
embedding evaluate the code's behaviour on inputs where the C++ program reads
freed memory.  The per-node random level drawn by `get_random_level` is an
external input of the operations (the spec requires a substitutable
deterministic source), constrained by `get_random_level`'s range `[0, 15]`.
-/

namespace ListContainer

/-- `MAX_SKIP_LEVEL` from the source. -/
def MAXL : Nat := 16

/-- Embedding of `Node<T>`: value, ring links `prev`/`next`, skip-list
`forward` array, `level`, `is_sentinel`, plus an `alive` flag modelling
whether the node's memory is currently allocated. -/
structure SNode where
  value : Int
  prev : Nat
  next : Nat
  forward : List Nat
  level : Nat
  is_sentinel : Bool
  alive : Bool

/-- Embedding of the private state of `Container<T>`: the heap (`mem`, `size`),
`sentinel_node` (None models `nullptr`), `num_elements`, `current_max_level`. -/
structure CState where
  mem : Nat → SNode
  size : Nat
  sentinel : Option Nat
  num_elements : Nat
  current_max_level : Nat

/-- Junk node filling unallocated heap cells. -/
def dummyNode : SNode :=
  { value := 0, prev := 0, next := 0, forward := [], level := 0,
    is_sentinel := false, alive := false }

/-- The sentinel as set up by `initialize_container`: ring links to itself,
`forward` of length `MAX_SKIP_LEVEL` all pointing to itself (the sentinel is
allocated at heap index 0 by the fresh container). -/
def sentinelNode : SNode :=
  { value := 0, prev := 0, next := 0, forward := List.replicate MAXL 0,
    level := MAXL - 1, is_sentinel := true, alive := true }

/-- A freshly constructed empty container (`initialize_container`). -/
def initContainer : CState :=
  { mem := fun i => if i = 0 then sentinelNode else dummyNode,
    size := 1, sentinel := some 0, num_elements := 0, current_max_level := 0 }

def nodeAt (s : CState) (i : Nat) : SNode := s.mem i

def valAt (s : CState) (i : Nat) : Int := (nodeAt s i).value

def nextAt (s : CState) (i : Nat) : Nat := (nodeAt s i).next

def prevAt (s : CState) (i : Nat) : Nat := (nodeAt s i).prev

def levelAt (s : CState) (i : Nat) : Nat := (nodeAt s i).level

/-- Read `node->forward[i]` (out-of-range reads return a junk 0). -/
def fwd (s : CState) (x i : Nat) : Nat := (nodeAt s x).forward.getD i 0

/-- Overwrite the node stored at heap index `x`. -/
def setNode (s : CState) (x : Nat) (n : SNode) : CState :=
  { s with mem := fun y => if y = x then n else s.mem y }

def setNextF (s : CState) (x y : Nat) : CState :=
  setNode s x { nodeAt s x with next := y }

def setPrevF (s : CState) (x y : Nat) : CState :=
  setNode s x { nodeAt s x with prev := y }

def setFwdF (s : CState) (x i y : Nat) : CState :=
  setNode s x { nodeAt s x with forward := (nodeAt s x).forward.set i y }

def setAliveF (s : CState) (x : Nat) (b : Bool) : CState :=
  setNode s x { nodeAt s x with alive := b }

/-- The sentinel pointer; operations in the source dereference it without a
null check, so reading it on a moved-from container models that dereference. -/
def stOf (s : CState) : Nat := s.sentinel.getD 0

/-- Error kinds thrown by the source (`std::out_of_range`,
`std::invalid_argument`, `std::bad_alloc`/constructor failure). -/
inductive CErr where
  | outOfRange : CErr
  | invalidArgument : CErr
  | allocationFailure : CErr
deriving DecidableEq

/-- `get_random_level`: starting from `level`, increment while the coin says
heads and `level < MAX_SKIP_LEVEL - 1`.  `draws` is the stream of comparisons
`dist(rng) < 0.5`. -/
def get_random_level : List Bool → Nat → Nat
  | [], level => level
  | d :: rest, level =>
      if d ∧ level < MAXL - 1 then get_random_level rest (level + 1) else level

/-- One level of the shared search descent:
`while (current->forward[i] != sentinel && current->forward[i]->value < v) current = current->forward[i]`. -/
def advanceAt (s : CState) (st : Nat) (v : Int) (i : Nat) : Nat → Nat → Nat
  | 0, cur => cur
  | fuel + 1, cur =>
      let nxt := fwd s cur i
      if nxt ≠ st ∧ valAt s nxt < v then advanceAt s st v i fuel nxt else cur

/-- The descent `for (int i = current_max_level; i >= 0; --i) ...` shared by
`insert`, `erase` and `find`; returns the final `current` and the `update`
array (`update[i]` at list position `i`). -/
def descend (s : CState) (st : Nat) (v : Int) (fuel : Nat) : Nat → Nat → Nat × List Nat
  | 0, cur =>
      let c := advanceAt s st v 0 fuel cur
      (c, [c])
  | i + 1, cur =>
      let c := advanceAt s st v (i + 1) fuel cur
      let p := descend s st v fuel i c
      (p.1, p.2 ++ [c])

/-- `Container::insert_dll_node_before`. -/
def insert_dll_node_before (s : CState) (new_node position_node : Nat) : CState :=
  let prev_node := prevAt s position_node
  let s1 := setNextF s new_node position_node
  let s2 := setPrevF s1 new_node prev_node
  let s3 := setNextF s2 prev_node new_node
  let s4 := setPrevF s3 position_node new_node
  { s4 with num_elements := s4.num_elements + 1 }

/-- `Container::remove_dll_node`. -/
def remove_dll_node (s : CState) (n : Nat) : CState :=
  let s1 := setNextF s (prevAt s n) (nextAt s n)
  let s2 := setPrevF s1 (nextAt s1 n) (prevAt s1 n)
  { s2 with num_elements := s2.num_elements - 1 }

/-- The index-linking loop of `insert`:
`for (i = 0; i <= new_node->level; ++i) { new->forward[i] = update[i]->forward[i]; update[i]->forward[i] = new; }`
(`count` iterations starting at level `i`; `u.getD i st` models the update
array whose entries above the old `current_max_level` are the sentinel). -/
def spliceLevels (s : CState) (nid st : Nat) (u : List Nat) : Nat → Nat → CState
  | 0, _ => s
  | c + 1, i =>
      let ui := u.getD i st
      let s1 := setFwdF s nid i (fwd s ui i)
      let s2 := setFwdF s1 ui i nid
      spliceLevels s2 nid st u c (i + 1)

/-- `allocate_and_construct_node`: fresh heap cell holding the fully
constructed node (`forward(level+1, nullptr)` modelled as junk 0 entries,
all overwritten before use, exactly as in the source). -/
def allocate_node (s : CState) (v : Int) (lvl : Nat) : CState × Nat :=
  let nid := s.size
  ({ s with
      mem := fun y =>
        if y = nid then
          { value := v, prev := 0, next := 0, forward := List.replicate (lvl + 1) 0,
            level := lvl, is_sentinel := false, alive := true }
        else s.mem y,
      size := s.size + 1 }, nid)

/-- `Container::insert(pos, value)` after the level draw: allocate, descend,
ring-splice before `current->next`, raise `current_max_level`, link all
levels `0..lvl`.  Returns the new state and the returned iterator's node. -/
def insertCore (s : CState) (v : Int) (lvl : Nat) : CState × Nat :=
  let st := stOf s
  let a := allocate_node s v lvl
  let s1 := a.1
  let nid := a.2
  let d := descend s1 st v (s1.size + 1) s1.current_max_level st
  let c := d.1
  let u := d.2
  let next_dll := nextAt s1 c
  let s2 := insert_dll_node_before s1 nid next_dll
  let cml2 := if lvl > s2.current_max_level then lvl else s2.current_max_level
  let s3 := { s2 with current_max_level := cml2 }
  let s4 := spliceLevels s3 nid st u (lvl + 1) 0
  (s4, nid)

/-- `Container::insert(pos, value)`: the position hint is `[[maybe_unused]]`
and never read. -/
def insertAt (s : CState) (pos : Option Nat) (v : Int) (lvl : Nat) : CState × Nat :=
  let _ := pos
  insertCore s v lvl

/-- `end()` returns `iterator(sentinel_node)` (a null cursor if the sentinel
pointer is null). -/
def endIter (s : CState) : Option Nat := s.sentinel

/-- `begin()` dereferences `sentinel_node->next`; `none` models the null
dereference on a moved-from container. -/
def beginIter (s : CState) : Option (Option Nat) :=
  match s.sentinel with
  | none => none
  | some st => some (some (nextAt s st))

/-- `push_front(v)` simply calls `insert(end(), value)`. -/
def push_front (s : CState) (v : Int) (lvl : Nat) : CState :=
  (insertAt s (endIter s) v lvl).1

/-- `push_back(v)` simply calls `insert(end(), value)`. -/
def push_back (s : CState) (v : Int) (lvl : Nat) : CState :=
  (insertAt s (endIter s) v lvl).1

/-- The unlink loop of `remove_from_skip_list`:
`for (i = 0; i <= current->level; ++i) if (update[i]->forward[i] == node) update[i]->forward[i] = node->forward[i]`. -/
def unlinkLevels (s : CState) (nid st : Nat) (u : List Nat) : Nat → Nat → CState
  | 0, _ => s
  | c + 1, i =>
      let ui := u.getD i st
      let s1 := if fwd s ui i = nid then setFwdF s ui i (fwd s nid i) else s
      unlinkLevels s1 nid st u c (i + 1)

/-- `while (current_max_level > 0 && sentinel->forward[current_max_level] == sentinel) current_max_level--`. -/
def shrinkLoop (s : CState) (st : Nat) : Nat → Nat
  | 0 => 0
  | c + 1 => if fwd s st (c + 1) = st then shrinkLoop s st c else c + 1

/-- `Container::remove_from_skip_list`: re-derive the update array from the
node's value; unlink only when the node found at level 0 is the node itself. -/
def remove_from_skip_list (s : CState) (nid : Nat) : CState :=
  let st := stOf s
  let v := valAt s nid
  let d := descend s st v (s.size + 1) s.current_max_level st
  let u := d.2
  let cur := fwd s (u.getD 0 st) 0
  if cur ≠ st ∧ cur = nid then
    let s1 := unlinkLevels s nid st u (levelAt s cur + 1) 0
    { s1 with current_max_level := shrinkLoop s1 st s1.current_max_level }
  else s

/-- `Container::erase(pos)`. -/
def eraseOp (s : CState) (pos : Option Nat) : Except CErr (Option Nat × CState) :=
  match pos with
  | none => Except.error CErr.invalidArgument
  | some nid =>
      if nid = stOf s ∨ s.num_elements = 0 then Except.error CErr.invalidArgument
      else
        let next_node := nextAt s nid
        let s1 := remove_from_skip_list s nid
        let s2 := remove_dll_node s1 nid
        let s3 := setAliveF s2 nid false
        Except.ok (some next_node, s3)

/-- `Container::find_node_in_skip_list`. -/
def find_node_in_skip_list (s : CState) (v : Int) : Option Nat :=
  let st := stOf s
  let d := descend s st v (s.size + 1) s.current_max_level st
  let cur := fwd s d.1 0
  if cur ≠ st ∧ valAt s cur = v then some cur else none

/-- `Container::contains`. -/
def containsOp (s : CState) (v : Int) : Bool :=
  (find_node_in_skip_list s v).isSome

/-- `Container::find`: iterator to the found node, or `end()`. -/
def findIter (s : CState) (v : Int) : Option Nat :=
  match find_node_in_skip_list s v with
  | some n => some n
  | none => endIter s

/-- `Container::front`. -/
def frontOp (s : CState) : Except CErr Int :=
  if s.num_elements = 0 then Except.error CErr.outOfRange
  else Except.ok (valAt s (nextAt s (stOf s)))

/-- `Container::back`. -/
def backOp (s : CState) : Except CErr Int :=
  if s.num_elements = 0 then Except.error CErr.outOfRange
  else Except.ok (valAt s (prevAt s (stOf s)))

/-- `Iterator::operator*`. -/
def iterDeref (s : CState) (c : Option Nat) : Except CErr Int :=
  match c with
  | none => Except.error CErr.outOfRange
  | some n =>
      if (nodeAt s n).is_sentinel = true then Except.error CErr.outOfRange
      else Except.ok (valAt s n)

/-- `Iterator::operator->` (same guard, yields the address of the value). -/
def iterArrow (s : CState) (c : Option Nat) : Except CErr Int :=
  match c with
  | none => Except.error CErr.outOfRange
  | some n =>
      if (nodeAt s n).is_sentinel = true then Except.error CErr.outOfRange
      else Except.ok (valAt s n)

/-- `Iterator::operator++`. -/
def iterInc (s : CState) (c : Option Nat) : Except CErr (Option Nat) :=
  match c with
  | none => Except.error CErr.outOfRange
  | some n => Except.ok (some (nextAt s n))

/-- `Iterator::operator--`. -/
def iterDec (s : CState) (c : Option Nat) : Except CErr (Option Nat) :=
  match c with
  | none => Except.error CErr.outOfRange
  | some n => Except.ok (some (prevAt s n))

/-- `Container::pop_front`: guard, then `erase(begin())`. -/
def popFront (s : CState) : Except CErr CState :=
  if s.num_elements = 0 then Except.error CErr.outOfRange
  else
    match eraseOp s (some (nextAt s (stOf s))) with
    | Except.ok r => Except.ok r.2
    | Except.error e => Except.error e

/-- `Container::pop_back`: guard, then `erase(--end())`. -/
def popBack (s : CState) : Except CErr CState :=
  if s.num_elements = 0 then Except.error CErr.outOfRange
  else
    match iterDec s (endIter s) with
    | Except.error e => Except.error e
    | Except.ok c =>
        match eraseOp s c with
        | Except.ok r => Except.ok r.2
        | Except.error e => Except.error e

/-- The container as the caller observes it after `pop_front` (unchanged when
the call throws). -/
def runPopFront (s : CState) : CState :=
  match popFront s with
  | Except.ok s1 => s1
  | Except.error _ => s

/-- The container as the caller observes it after `pop_back`. -/
def runPopBack (s : CState) : CState :=
  match popBack s with
  | Except.ok s1 => s1
  | Except.error _ => s

/-- `insert` with the possibility that `allocate_and_construct_node` throws:
allocation and full construction happen before any splice, so a failure
propagates before the container is touched. -/
def insertFallible (s : CState) (pos : Option Nat) (v : Int) (lvl : Nat)
    (allocOk : Bool) : Except CErr (CState × Nat) :=
  if allocOk then Except.ok (insertAt s pos v lvl)
  else Except.error CErr.allocationFailure

/-- The container as the caller observes it after a possibly-failing insert. -/
def runInsertFallible (s : CState) (pos : Option Nat) (v : Int) (lvl : Nat)
    (allocOk : Bool) : CState :=
  match insertFallible s pos v lvl allocOk with
  | Except.ok r => r.1
  | Except.error _ => s

/-- The state a moved-from container is left in by the move constructor and
move assignment: all pointers nulled, count and level zeroed, no owned nodes. -/
def movedFromState : CState :=
  { mem := fun _ => dummyNode, size := 0, sentinel := none,
    num_elements := 0, current_max_level := 0 }

/-- `Container(Container&&)`: the target steals every field; the source is
left with null `sentinel_node` and `skip_list_heads`, zero count and level. -/
def moveConstruct (s : CState) : CState × CState :=
  ({ mem := s.mem, size := s.size, sentinel := s.sentinel,
     num_elements := s.num_elements, current_max_level := s.current_max_level },
   movedFromState)

/-- `operator=(Container&&)` (std::allocator propagates): destroy own nodes,
steal the source's fields, null the source. -/
def moveAssign (target s : CState) : CState × CState :=
  let _ := target
  ({ mem := s.mem, size := s.size, sentinel := s.sentinel,
     num_elements := s.num_elements, current_max_level := s.current_max_level },
   movedFromState)

/-- `destroy_container_nodes`: with a null sentinel it only frees
`skip_list_heads` and returns; otherwise it frees every node and nulls the
sentinel (it does not reset `num_elements`). -/
def destroy_container_nodes (s : CState) : CState :=
  match s.sentinel with
  | none => { s with mem := fun _ => dummyNode, size := 0 }
  | some _ =>
      { mem := fun _ => dummyNode, size := 0, sentinel := none,
        num_elements := s.num_elements, current_max_level := s.current_max_level }

/-- `clear()`: destroy everything and reinitialize to a fresh empty container. -/
def clearOp (s : CState) : CState :=
  let _ := s
  initContainer

/-- Follow a successor function from the node after the sentinel until the
sentinel reappears, collecting the visited node ids. -/
def followAux (f : Nat → Nat) (st : Nat) : Nat → Nat → List Nat
  | 0, _ => []
  | fuel + 1, cur => if cur = st then [] else cur :: followAux f st fuel (f cur)

/-- The node ids met by a full ring traversal `sentinel->next, ...`. -/
def ringIds (s : CState) : List Nat :=
  match s.sentinel with
  | none => []
  | some st => followAux (fun x => nextAt s x) st (s.size + 1) (nextAt s st)

/-- The values met by a full ring traversal. -/
def ringVals (s : CState) : List Int :=
  (ringIds s).map (valAt s)

/-- The node ids met by following `forward[i]` from the sentinel. -/
def chainIds (s : CState) (i : Nat) : List Nat :=
  match s.sentinel with
  | none => []
  | some st => followAux (fun x => fwd s x i) st (s.size + 1) (fwd s st i)

/-- Pairwise non-decreasing check on a value list. -/
def nonDecreasing : List Int → Bool
  | [] => true
  | [_] => true
  | a :: b :: t => decide (a ≤ b) && nonDecreasing (b :: t)

/-- Trace state: fresh container after `insert(5)` with drawn level 0
(the data node gets heap index 1). -/
def sIns5a : CState := (insertAt initContainer none 5 0).1

/-- Trace state: after a second `insert(5)` with drawn level 0 (heap index 2);
the ring now reads sentinel, node 2, node 1. -/
def sIns5b : CState := (insertAt sIns5a none 5 0).1

/-- Trace state: after `erase` at the cursor denoting node 1, the second of
the two equal elements in ring order. -/
def sEraseDup : CState :=
  match eraseOp sIns5b (some 1) with
  | Except.ok r => r.2
  | Except.error _ => sIns5b

/-- Trace state: after a further `insert(7)` with drawn level 0. -/
def sIns7 : CState := (insertAt sEraseDup none 7 0).1

/-- Trace state: after a further `insert(6)` with drawn level 0. -/
def sIns6 : CState := (insertAt sIns7 none 6 0).1

/-- The ring sequence `sentinel :: L` read at position `k` (out-of-range
reads default to the sentinel). -/
def nthR (st : Nat) (L : List Nat) (k : Nat) : Nat := (st :: L).getD k st

/-- Length of the full ring cycle including the sentinel. -/
def lenR (L : List Nat) : Nat := L.length + 1

/-- Basic node/bookkeeping well-formedness: the sentinel is a live sentinel
node with a `MAX_SKIP_LEVEL`-sized forward array, the listed data nodes are
live non-sentinel nodes with `level+1`-sized forward arrays, ids are distinct
and allocated, and `num_elements` matches. -/
def wfNodes (s : CState) (st : Nat) (L : List Nat) : Prop :=
  s.sentinel = some st ∧ st < s.size ∧ (nodeAt s st).is_sentinel = true ∧
  (nodeAt s st).forward.length = MAXL ∧ s.current_max_level < MAXL ∧
  s.num_elements = L.length ∧ (st :: L).Nodup ∧
  ∀ x ∈ L, x < s.size ∧ (nodeAt s x).is_sentinel = false ∧
    (nodeAt s x).alive = true ∧
    (nodeAt s x).forward.length = (nodeAt s x).level + 1 ∧
    (nodeAt s x).level < MAXL

/-- The `next` pointers trace the cycle `sentinel, L..., sentinel`. -/
def ringNextSpec (s : CState) (st : Nat) (L : List Nat) : Prop :=
  ∀ k ∈ List.range (lenR L), nextAt s (nthR st L k) = nthR st L ((k + 1) % lenR L)

/-- The `prev` pointers trace the same cycle backwards. -/
def ringPrevSpec (s : CState) (st : Nat) (L : List Nat) : Prop :=
  ∀ k ∈ List.range (lenR L), prevAt s (nthR st L ((k + 1) % lenR L)) = nthR st L k

/-- The level-0 forward chain coincides with the ring cycle. -/
def fwdZeroSpec (s : CState) (st : Nat) (L : List Nat) : Prop :=
  ∀ k ∈ List.range (lenR L), fwd s (nthR st L k) 0 = nthR st L ((k + 1) % lenR L)

/-- Every forward pointer above level 0 either returns to the sentinel or
jumps strictly forward in the ring, to a node that itself participates in
that level. -/
def fwdHighSpec (s : CState) (st : Nat) (L : List Nat) : Prop :=
  ∀ k ∈ List.range (lenR L),
    ∀ i ∈ List.range ((nodeAt s (nthR st L k)).forward.length),
      i = 0 ∨ fwd s (nthR st L k) i = st ∨
        ∃ m ∈ List.range (lenR L), k < m ∧ fwd s (nthR st L k) i = nthR st L m ∧
          i < (nodeAt s (nthR st L m)).forward.length

/-- Ring values are non-decreasing. -/
def sortedSpec (s : CState) (L : List Nat) : Prop :=
  ∀ k ∈ List.range L.length, ∀ j ∈ List.range (k + 1),
    valAt s (L.getD j 0) ≤ valAt s (L.getD k 0)

/-- Full well-formedness of a container state whose ring order is `L`,
i.e. the invariants of spec §3 for the states the container reaches while
the erase defect is not triggered. -/
def WFC (s : CState) (st : Nat) (L : List Nat) : Prop :=
  wfNodes s st L ∧ ringNextSpec s st L ∧ ringPrevSpec s st L ∧
  fwdZeroSpec s st L ∧ fwdHighSpec s st L ∧ sortedSpec s L

instance decWfNodes (s : CState) (st : Nat) (L : List Nat) :
    Decidable (wfNodes s st L) := by
  unfold wfNodes
  infer_instance

instance decRingNextSpec (s : CState) (st : Nat) (L : List Nat) :
    Decidable (ringNextSpec s st L) := by
  unfold ringNextSpec
  infer_instance

instance decRingPrevSpec (s : CState) (st : Nat) (L : List Nat) :
    Decidable (ringPrevSpec s st L) := by
  unfold ringPrevSpec
  infer_instance

instance decFwdZeroSpec (s : CState) (st : Nat) (L : List Nat) :
    Decidable (fwdZeroSpec s st L) := by
  unfold fwdZeroSpec
  infer_instance

instance decFwdHighSpec (s : CState) (st : Nat) (L : List Nat) :
    Decidable (fwdHighSpec s st L) := by
  unfold fwdHighSpec
  infer_instance

instance decSortedSpec (s : CState) (L : List Nat) :
    Decidable (sortedSpec s L) := by
  unfold sortedSpec
  infer_instance

instance decWFC (s : CState) (st : Nat) (L : List Nat) :
    Decidable (WFC s st L) := by
  unfold WFC
  infer_instance

/-- The computation `insert` performs after the node is allocated: descend,
ring-splice before `current->next`, raise the level, link the index levels.
`insertCore s v lvl = (insExpr s1 (stOf s) v lvl nid, nid)` definitionally,
where `s1` is the post-allocation heap and `nid` the fresh node. -/
def insExpr (s1 : CState) (st : Nat) (v : Int) (lvl nid : Nat) : CState :=
  let d := descend s1 st v (s1.size + 1) s1.current_max_level st
  let s2 := insert_dll_node_before s1 nid (nextAt s1 d.1)
  let cml2 := if lvl > s2.current_max_level then lvl else s2.current_max_level
  spliceLevels { s2 with current_max_level := cml2 } nid st d.2 (lvl + 1) 0

end ListContainer

namespace ListContainer

/-! ### Small bookkeeping lemmas -/

theorem setNode_num (s : CState) (x : Nat) (n : SNode) :
    (setNode s x n).num_elements = s.num_elements := rfl

theorem spliceLevels_num (nid st : Nat) (u : List Nat) :
    ∀ c i s, (spliceLevels s nid st u c i).num_elements = s.num_elements
  | 0, _, _ => rfl
  | c + 1, i, s => by
      show (spliceLevels _ nid st u c (i + 1)).num_elements = s.num_elements
      exact spliceLevels_num nid st u c (i + 1) _

theorem insert_dll_num (s : CState) (a b : Nat) :
    (insert_dll_node_before s a b).num_elements = s.num_elements + 1 := rfl

theorem insertCore_num (s : CState) (v : Int) (lvl : Nat) :
    (insertCore s v lvl).1.num_elements = s.num_elements + 1 := by
  show (spliceLevels _ _ _ _ _ _).num_elements = s.num_elements + 1
  rw [spliceLevels_num]
  rfl

/-! ### Claim C1 (status: code_bug) -/

/-- C1: the claim states that `erase(pos)` removes the denoted node from every
index level even among equal values.  Evaluating the code on a container
holding two copies of 5 and erasing the cursor to the ring-second copy
(node 1): the erase call succeeds, node 1 is deallocated and gone from the
ring, yet the surviving equal node 2 still has `forward[0]` pointing at the
freed node 1 — `remove_from_skip_list`'s strict `<` descent stopped at the
first equal node (node 2) and skipped the unlink. -/
theorem claim_C1_dangling_index_pointer :
    (eraseOp sIns5b (some 1)).toOption.isSome = true ∧
    (nodeAt sIns5b 1).is_sentinel = false ∧
    valAt sIns5b 1 = 5 ∧ valAt sIns5b 2 = 5 ∧
    (nodeAt sEraseDup 1).alive = false ∧
    ringIds sEraseDup = [2] ∧
    (nodeAt sEraseDup 2).alive = true ∧
    fwd sEraseDup 2 0 = 1 := by decide

/-! ### Claim C2 (status: code_bug) -/

/-- C2: the claim states ring traversal is non-decreasing after every
sequence of public operations.  Evaluating the code on the sequence
insert 5, insert 5, erase(cursor to the ring-second 5), insert 7, insert 6
(all drawn levels 0): the corrupted level-0 chain left by the erase makes the
descent for 6 stop at the freed node, whose stale `next` still points at the
sentinel, so 6 is ring-spliced after 7 and the ring reads 5, 7, 6. -/
theorem claim_C2_ring_order_violated :
    ringVals sIns6 = [5, 7, 6] ∧
    nonDecreasing (ringVals sIns6) = false ∧
    sIns6.num_elements = 3 := by decide

/-! ### Claim C3 (status: corrected) -/

/-- C3: the claim states a new element equal to existing ones is placed
after all existing equal elements.  Counterexample: inserting 5 into the
container already holding one 5 (node 1) creates node 2 and places it
before node 1 in both ring order and the level-0 chain. -/
theorem claim_C3_counterexample :
    valAt sIns5a 1 = 5 ∧
    (insertAt sIns5a none 5 0).2 = 2 ∧
    ringIds sIns5b = [2, 1] ∧
    chainIds sIns5b 0 = [2, 1] := by decide

/-! ### Claim C4 (status: code_bug) -/

/-- C4: the claim states `size()` always equals both the ring count and the
level-0 forward count.  Evaluating the code after erasing the ring-second of
two equal elements: `size()` is 1 and the ring holds one node, but the
level-0 chain from the sentinel still visits two nodes (the survivor and the
freed node it still points to). -/
theorem claim_C4_count_mismatch :
    sEraseDup.num_elements = 1 ∧
    (ringIds sEraseDup).length = 1 ∧
    chainIds sEraseDup 0 = [2, 1] ∧
    (chainIds sEraseDup 0).length = 2 := by decide

/-! ### Claim C5 (status: corrected) -/

/-- C5 counterexample: the claim states the moved-from source keeps a fresh
sentinel and that `begin()` behaves as on a freshly constructed empty
container.  After moving from a one-element container the source's sentinel
pointer is null and `begin()` dereferences it (modelled `none`), while a
fresh empty container has sentinel 0 and `begin()` yields the cursor to it. -/
theorem claim_C5_counterexample :
    (moveConstruct sIns5a).2.sentinel = none ∧
    beginIter (moveConstruct sIns5a).2 = none ∧
    initContainer.sentinel = some 0 ∧
    beginIter initContainer = some (some 0) := by decide

/-- C5 amended: move construction and move assignment transfer the whole
state (heap, sentinel, count, level) to the target in O(1), so the target
holds exactly the source's element sequence; the source is left empty
(`size() == 0`), owning no nodes, with null sentinel and index pointers —
so it is safely destructible (the destructor takes the null-sentinel early
return) and never shares a sentinel with the target — but it does not get a
fresh sentinel, so sentinel-dereferencing operations such as `begin()` do
not behave as on a freshly constructed empty container. -/
theorem claim_C5_amended (s : CState) (st : Nat) (h : s.sentinel = some st) :
    (moveConstruct s).1 = s ∧
    ringVals (moveConstruct s).1 = ringVals s ∧
    (moveConstruct s).2 = movedFromState ∧
    (moveConstruct s).2.num_elements = 0 ∧
    (moveConstruct s).2.size = 0 ∧
    (moveConstruct s).2.sentinel = none ∧
    destroy_container_nodes (moveConstruct s).2 = (moveConstruct s).2 ∧
    (moveConstruct s).2.sentinel ≠ some st ∧
    beginIter (moveConstruct s).2 = none ∧
    moveAssign s s = moveConstruct s := by
  refine ⟨rfl, rfl, rfl, rfl, rfl, rfl, rfl, ?_, rfl, rfl⟩
  intro hc
  exact Option.noConfusion hc

/-- Witness for C5 amended at the concrete one-element container. -/
theorem claim_C5_amended_witness :
    sIns5a.sentinel = some 0 ∧ (moveConstruct sIns5a).2.sentinel ≠ some 0 :=
  ⟨by decide, (claim_C5_amended sIns5a 0 (by decide)).2.2.2.2.2.2.2.1⟩

/-! ### Claim C6 (status: confirmed) -/

/-- C6: on an empty container, `front`, `back`, `pop_front` and `pop_back`
each throw `std::out_of_range` synchronously (never swallowed or retried)
and the container is unchanged. -/
theorem claim_C6_empty_access (s : CState) (h : s.num_elements = 0) :
    frontOp s = Except.error CErr.outOfRange ∧
    backOp s = Except.error CErr.outOfRange ∧
    popFront s = Except.error CErr.outOfRange ∧
    popBack s = Except.error CErr.outOfRange ∧
    runPopFront s = s ∧
    runPopBack s = s := by
  refine ⟨?_, ?_, ?_, ?_, ?_, ?_⟩ <;>
    simp [frontOp, backOp, popFront, popBack, runPopFront, runPopBack, h]

/-- Witness for C6 at the freshly constructed empty container. -/
theorem claim_C6_witness :
    initContainer.num_elements = 0 ∧
    frontOp initContainer = Except.error CErr.outOfRange ∧
    runPopBack initContainer = initContainer :=
  ⟨rfl, (claim_C6_empty_access initContainer rfl).1,
    (claim_C6_empty_access initContainer rfl).2.2.2.2.2⟩

/-! ### Claim C7 (status: confirmed) -/

/-- C7: `insert` draws the level and then allocates and fully constructs the
node before touching the container; if that allocation or construction
throws, the error propagates and the container is exactly its prior state
(no partial ring or index update, `size()` unchanged); on success the
operation completes with `size()` incremented by one. -/
theorem claim_C7_alloc_failure (s : CState) (pos : Option Nat) (v : Int) (lvl : Nat) :
    insertFallible s pos v lvl false = Except.error CErr.allocationFailure ∧
    runInsertFallible s pos v lvl false = s ∧
    (runInsertFallible s pos v lvl false).num_elements = s.num_elements ∧
    insertFallible s pos v lvl true = Except.ok (insertAt s pos v lvl) ∧
    (insertAt s pos v lvl).1.num_elements = s.num_elements + 1 := by
  refine ⟨rfl, rfl, rfl, rfl, ?_⟩
  exact insertCore_num s v lvl

/-! ### Claim C10 (status: confirmed) -/

/-- C10: dereferencing a null cursor or a cursor at the sentinel (`end()`)
throws `std::out_of_range` from `operator*` and `operator->`; incrementing or
decrementing a null cursor throws `std::out_of_range`; a valid non-sentinel
cursor dereferences to its node's value without error. -/
theorem claim_C10_cursor_guards (s : CState) (n : Nat) :
    iterDeref s none = Except.error CErr.outOfRange ∧
    iterArrow s none = Except.error CErr.outOfRange ∧
    iterInc s none = Except.error CErr.outOfRange ∧
    iterDec s none = Except.error CErr.outOfRange ∧
    ((nodeAt s n).is_sentinel = true →
      iterDeref s (some n) = Except.error CErr.outOfRange ∧
      iterArrow s (some n) = Except.error CErr.outOfRange) ∧
    ((nodeAt s n).is_sentinel = false →
      iterDeref s (some n) = Except.ok (valAt s n) ∧
      iterArrow s (some n) = Except.ok (valAt s n)) := by
  refine ⟨rfl, rfl, rfl, rfl, ?_, ?_⟩ <;>
    intro h <;> constructor <;> simp [iterDeref, iterArrow, h]

/-- Witness for C10: the sentinel cursor of the empty container throws, and
the data-node cursor of a one-element container dereferences to its value. -/
theorem claim_C10_witness :
    (nodeAt initContainer 0).is_sentinel = true ∧
    iterDeref initContainer (some 0) = Except.error CErr.outOfRange ∧
    (nodeAt sIns5a 1).is_sentinel = false ∧
    iterDeref sIns5a (some 1) = Except.ok 5 :=
  ⟨rfl, ((claim_C10_cursor_guards initContainer 0).2.2.2.2.1 rfl).1, rfl,
    ((claim_C10_cursor_guards sIns5a 1).2.2.2.2.2 rfl).1⟩

/-! ### List access helpers -/

theorem getD_set_ne {l : List Nat} {i j y d : Nat} (hij : i ≠ j) :
    (l.set i y).getD j d = l.getD j d := by
  simp [List.getD_eq_getElem?_getD, List.getElem?_set_ne hij]

theorem getD_set_self {l : List Nat} {i y d : Nat} (h : i < l.length) :
    (l.set i y).getD i d = y := by
  simp [List.getD_eq_getElem?_getD, List.getElem?_set_self, h]

theorem getD_drop (l : List Nat) (i j d : Nat) :
    (l.drop i).getD j d = l.getD (i + j) d := by
  simp [List.getD_eq_getElem?_getD, List.getElem?_drop]

theorem nodup_length_le {l : List Nat} {n : Nat} (hnd : l.Nodup)
    (hlt : ∀ x ∈ l, x < n) : l.length ≤ n := by
  have h1 : l.toFinset.card = l.length := List.toFinset_card_of_nodup hnd
  have h2 : l.toFinset ⊆ Finset.range n := by
    intro x hx
    exact Finset.mem_range.mpr (hlt x (List.mem_toFinset.mp hx))
  have h3 := Finset.card_le_card h2
  rw [h1, Finset.card_range] at h3
  exact h3

/-! ### Reading through state updates -/

theorem nodeAt_setNode (s : CState) (x : Nat) (n : SNode) (y : Nat) :
    nodeAt (setNode s x n) y = if y = x then n else nodeAt s y := rfl

theorem nextAt_setNextF (s : CState) (x y z : Nat) :
    nextAt (setNextF s x y) z = if z = x then y else nextAt s z := by
  by_cases h : z = x <;> simp [nextAt, setNextF, setNode, h, nodeAt]

theorem prevAt_setNextF (s : CState) (x y z : Nat) :
    prevAt (setNextF s x y) z = prevAt s z := by
  by_cases h : z = x <;> simp [prevAt, setNextF, setNode, h, nodeAt]

theorem forward_setNextF (s : CState) (x y z : Nat) :
    (nodeAt (setNextF s x y) z).forward = (nodeAt s z).forward := by
  by_cases h : z = x <;> simp [setNextF, setNode, h, nodeAt]

theorem valAt_setNextF (s : CState) (x y z : Nat) :
    valAt (setNextF s x y) z = valAt s z := by
  by_cases h : z = x <;> simp [valAt, setNextF, setNode, h, nodeAt]

theorem prevAt_setPrevF (s : CState) (x y z : Nat) :
    prevAt (setPrevF s x y) z = if z = x then y else prevAt s z := by
  by_cases h : z = x <;> simp [prevAt, setPrevF, setNode, h, nodeAt]

theorem nextAt_setPrevF (s : CState) (x y z : Nat) :
    nextAt (setPrevF s x y) z = nextAt s z := by
  by_cases h : z = x <;> simp [nextAt, setPrevF, setNode, h, nodeAt]

theorem forward_setPrevF (s : CState) (x y z : Nat) :
    (nodeAt (setPrevF s x y) z).forward = (nodeAt s z).forward := by
  by_cases h : z = x <;> simp [setPrevF, setNode, h, nodeAt]

theorem valAt_setPrevF (s : CState) (x y z : Nat) :
    valAt (setPrevF s x y) z = valAt s z := by
  by_cases h : z = x <;> simp [valAt, setPrevF, setNode, h, nodeAt]

theorem fwd_setNextF (s : CState) (x y z i : Nat) :
    fwd (setNextF s x y) z i = fwd s z i := by
  simp [fwd, forward_setNextF]

theorem fwd_setPrevF (s : CState) (x y z i : Nat) :
    fwd (setPrevF s x y) z i = fwd s z i := by
  simp [fwd, forward_setPrevF]

theorem nextAt_setFwdF (s : CState) (x i y z : Nat) :
    nextAt (setFwdF s x i y) z = nextAt s z := by
  by_cases h : z = x <;> simp [nextAt, setFwdF, setNode, h, nodeAt]

theorem prevAt_setFwdF (s : CState) (x i y z : Nat) :
    prevAt (setFwdF s x i y) z = prevAt s z := by
  by_cases h : z = x <;> simp [prevAt, setFwdF, setNode, h, nodeAt]

theorem valAt_setFwdF (s : CState) (x i y z : Nat) :
    valAt (setFwdF s x i y) z = valAt s z := by
  by_cases h : z = x <;> simp [valAt, setFwdF, setNode, h, nodeAt]

theorem forward_setFwdF_ne (s : CState) (x i y z : Nat) (h : z ≠ x) :
    (nodeAt (setFwdF s x i y) z).forward = (nodeAt s z).forward := by
  simp [setFwdF, setNode, nodeAt, h]

theorem forward_len_setFwdF (s : CState) (x i y z : Nat) :
    (nodeAt (setFwdF s x i y) z).forward.length = (nodeAt s z).forward.length := by
  by_cases h : z = x <;> simp [setFwdF, setNode, nodeAt, h]

theorem fwd_setFwdF_ne_node (s : CState) (x i y z j : Nat) (h : z ≠ x) :
    fwd (setFwdF s x i y) z j = fwd s z j := by
  simp [fwd, forward_setFwdF_ne s x i y z h]

theorem fwd_setFwdF_ne_level (s : CState) (x i y z j : Nat) (h : i ≠ j) :
    fwd (setFwdF s x i y) z j = fwd s z j := by
  by_cases hz : z = x
  · subst hz
    simp [fwd, setFwdF, setNode, nodeAt, List.getElem?_set_ne h]
  · exact fwd_setFwdF_ne_node s x i y z j hz

theorem fwd_setFwdF_self (s : CState) (x i y : Nat)
    (h : i < (nodeAt s x).forward.length) :
    fwd (setFwdF s x i y) x i = y := by
  have h2 : i < (s.mem x).forward.length := h
  simp [fwd, setFwdF, setNode, nodeAt, List.getElem?_set_self, h2]

theorem sentinel_setNode (s : CState) (x : Nat) (n : SNode) :
    (setNode s x n).sentinel = s.sentinel := rfl

theorem size_setNode (s : CState) (x : Nat) (n : SNode) :
    (setNode s x n).size = s.size := rfl

/-! ### nthR helpers -/

theorem nthR_zero (st : Nat) (L : List Nat) : nthR st L 0 = st := rfl

theorem nthR_succ (st : Nat) (L : List Nat) (t : Nat) :
    nthR st L (t + 1) = L.getD t st := rfl

theorem nthR_oob (st : Nat) (L : List Nat) (k : Nat) (h : lenR L ≤ k) :
    nthR st L k = st := by
  have h2 : (st :: L).length ≤ k := by simpa [lenR] using h
  simp [nthR, List.getD_eq_getElem?_getD, List.getElem?_eq_none h2]

theorem nthR_getElem (st : Nat) (L : List Nat) (k : Nat)
    (hk : k < (st :: L).length) : nthR st L k = (st :: L)[k] := by
  simp [nthR, List.getD_eq_getElem?_getD, List.getElem?_eq_getElem hk]

theorem nthR_mem (st : Nat) (L : List Nat) (k : Nat) (h : k < lenR L) :
    nthR st L k ∈ st :: L := by
  have hk : k < (st :: L).length := by simpa [lenR] using h
  rw [nthR_getElem st L k hk]
  exact List.getElem_mem _

theorem nthR_mem_L (st : Nat) (L : List Nat) (k : Nat) (h1 : 1 ≤ k) (h2 : k < lenR L) :
    nthR st L k ∈ L := by
  rcases Nat.exists_eq_add_of_le h1 with ⟨t, rfl⟩
  have ht : t < L.length := by
    have := h2
    simp [lenR] at this
    omega
  rw [Nat.add_comm 1 t, nthR_succ, List.getD_eq_getElem L st ht]
  exact List.getElem_mem _

theorem nthR_inj (st : Nat) (L : List Nat) (hnd : (st :: L).Nodup)
    {k1 k2 : Nat} (h1 : k1 < lenR L) (h2 : k2 < lenR L)
    (h : nthR st L k1 = nthR st L k2) : k1 = k2 := by
  have hk1 : k1 < (st :: L).length := by simpa [lenR] using h1
  have hk2 : k2 < (st :: L).length := by simpa [lenR] using h2
  rw [nthR_getElem st L k1 hk1, nthR_getElem st L k2 hk2] at h
  exact (List.Nodup.getElem_inj_iff hnd).mp h

theorem nthR_ne_st (st : Nat) (L : List Nat) (hnd : (st :: L).Nodup)
    {k : Nat} (h1 : 1 ≤ k) (h2 : k < lenR L) : nthR st L k ≠ st := by
  intro hc
  have h0 : (0 : Nat) < lenR L := by simp [lenR]
  have := nthR_inj st L hnd h2 h0 (by rw [hc, nthR_zero])
  omega

theorem nthR_mod_succ (st : Nat) (L : List Nat) (k : Nat) (h : k < lenR L) :
    nthR st L ((k + 1) % lenR L) = nthR st L (k + 1) := by
  rcases Nat.lt_or_ge (k + 1) (lenR L) with hlt | hge
  · rw [Nat.mod_eq_of_lt hlt]
  · have heq : k + 1 = lenR L := by omega
    rw [heq, Nat.mod_self, nthR_zero, nthR_oob st L (lenR L) (Nat.le_refl _)]

theorem getD_irrel (l : List Nat) (t d1 d2 : Nat) (h : t < l.length) :
    l.getD t d1 = l.getD t d2 := by
  rw [List.getD_eq_getElem _ _ h, List.getD_eq_getElem _ _ h]

theorem nthR_succ_in (st : Nat) (L : List Nat) (t : Nat) (h : t < L.length) :
    nthR st L (t + 1) = L.getD t 0 := by
  rw [nthR_succ]
  exact getD_irrel L t st 0 h

/-! ### Projections out of WFC -/

theorem wf_sentinel {s : CState} {st : Nat} {L : List Nat} (h : WFC s st L) :
    s.sentinel = some st := h.1.1

theorem wf_st_size {s : CState} {st : Nat} {L : List Nat} (h : WFC s st L) :
    st < s.size := h.1.2.1

theorem wf_st_cap {s : CState} {st : Nat} {L : List Nat} (h : WFC s st L) :
    (nodeAt s st).forward.length = MAXL := h.1.2.2.2.1

theorem wf_cml {s : CState} {st : Nat} {L : List Nat} (h : WFC s st L) :
    s.current_max_level < MAXL := h.1.2.2.2.2.1

theorem wf_num {s : CState} {st : Nat} {L : List Nat} (h : WFC s st L) :
    s.num_elements = L.length := h.1.2.2.2.2.2.1

theorem wf_nodup {s : CState} {st : Nat} {L : List Nat} (h : WFC s st L) :
    (st :: L).Nodup := h.1.2.2.2.2.2.2.1

theorem wf_mem {s : CState} {st : Nat} {L : List Nat} (h : WFC s st L)
    {x : Nat} (hx : x ∈ L) :
    x < s.size ∧ (nodeAt s x).is_sentinel = false ∧ (nodeAt s x).alive = true ∧
    (nodeAt s x).forward.length = (nodeAt s x).level + 1 ∧
    (nodeAt s x).level < MAXL := h.1.2.2.2.2.2.2.2 x hx

theorem wf_sorted_spec {s : CState} {st : Nat} {L : List Nat} (h : WFC s st L) :
    sortedSpec s L := h.2.2.2.2.2

theorem stOf_eq {s : CState} {st : Nat} {L : List Nat} (h : WFC s st L) :
    stOf s = st := by
  rw [stOf, wf_sentinel h]
  rfl

theorem wf_ringNext {s : CState} {st : Nat} {L : List Nat} (h : WFC s st L)
    (k : Nat) (hk : k < lenR L) :
    nextAt s (nthR st L k) = nthR st L (k + 1) := by
  have := h.2.1 k (List.mem_range.mpr hk)
  rwa [nthR_mod_succ st L k hk] at this

theorem wf_ringPrev {s : CState} {st : Nat} {L : List Nat} (h : WFC s st L)
    (k : Nat) (hk : k < lenR L) :
    prevAt s (nthR st L (k + 1)) = nthR st L k := by
  have := h.2.2.1 k (List.mem_range.mpr hk)
  rwa [nthR_mod_succ st L k hk] at this

theorem wf_fwd0 {s : CState} {st : Nat} {L : List Nat} (h : WFC s st L)
    (k : Nat) (hk : k < lenR L) :
    fwd s (nthR st L k) 0 = nthR st L (k + 1) := by
  have := h.2.2.2.1 k (List.mem_range.mpr hk)
  rwa [nthR_mod_succ st L k hk] at this

theorem wf_nthR_size {s : CState} {st : Nat} {L : List Nat} (h : WFC s st L)
    (k : Nat) (hk : k < lenR L) : nthR st L k < s.size := by
  cases k with
  | zero => rw [nthR_zero]; exact wf_st_size h
  | succ t =>
      exact (wf_mem h (nthR_mem_L st L (t + 1) (Nat.succ_le_succ (Nat.zero_le t)) hk)).1

theorem wf_len_le {s : CState} {st : Nat} {L : List Nat} (h : WFC s st L) :
    lenR L ≤ s.size := by
  have := nodup_length_le (l := st :: L) (n := s.size) (wf_nodup h) ?_
  · simpa [lenR] using this
  · intro x hx
    rcases List.mem_cons.mp hx with rfl | hx2
    · exact wf_st_size h
    · exact (wf_mem h hx2).1

/-! ### The descent lands on the last node with value < v -/

theorem fwd_step {s : CState} {st : Nat} {L : List Nat} (h : WFC s st L)
    {k i : Nat} (hk : k < lenR L)
    (hi : i < (nodeAt s (nthR st L k)).forward.length)
    (hne : fwd s (nthR st L k) i ≠ st) :
    ∃ m, k < m ∧ m < lenR L ∧ fwd s (nthR st L k) i = nthR st L m ∧
      i < (nodeAt s (nthR st L m)).forward.length := by
  cases i with
  | zero =>
      have hfwd := wf_fwd0 h k hk
      by_cases hk1 : k + 1 < lenR L
      · refine ⟨k + 1, Nat.lt_succ_self k, hk1, hfwd, ?_⟩
        have hm := wf_mem h (nthR_mem_L st L (k + 1) (Nat.succ_le_succ (Nat.zero_le k)) hk1)
        omega
      · exfalso
        have hkk : k + 1 = lenR L := by omega
        rw [hkk, nthR_oob st L (lenR L) (Nat.le_refl _)] at hfwd
        exact hne hfwd
  | succ i0 =>
      have hh := h.2.2.2.2.1 k (List.mem_range.mpr hk) (i0 + 1) (List.mem_range.mpr hi)
      rcases hh with h0 | hst | ⟨m, hmR, hkm, heq, hcap⟩
      · omega
      · exact absurd hst hne
      · exact ⟨m, hkm, List.mem_range.mp hmR, heq, hcap⟩

theorem advanceAt_succ (s : CState) (st : Nat) (v : Int) (i f cur : Nat) :
    advanceAt s st v i (f + 1) cur =
      if fwd s cur i ≠ st ∧ valAt s (fwd s cur i) < v then
        advanceAt s st v i f (fwd s cur i)
      else cur := rfl

theorem advanceAt_spec (s : CState) (st : Nat) (L : List Nat) (v : Int) (i : Nat)
    (h : WFC s st L) :
    ∀ fuel k, k < lenR L →
      i < (nodeAt s (nthR st L k)).forward.length →
      (k = 0 ∨ valAt s (nthR st L k) < v) →
      lenR L - k ≤ fuel →
      ∃ j, k ≤ j ∧ j < lenR L ∧
        advanceAt s st v i fuel (nthR st L k) = nthR st L j ∧
        i < (nodeAt s (nthR st L j)).forward.length ∧
        (j = 0 ∨ valAt s (nthR st L j) < v) ∧
        ¬ (fwd s (nthR st L j) i ≠ st ∧ valAt s (fwd s (nthR st L j) i) < v) := by
  intro fuel
  induction fuel with
  | zero =>
      intro k hk _ _ hfuel
      omega
  | succ f ih =>
      intro k hk hcap hval hfuel
      rw [advanceAt_succ]
      by_cases hguard : fwd s (nthR st L k) i ≠ st ∧ valAt s (fwd s (nthR st L k) i) < v
      · rcases fwd_step h hk hcap hguard.1 with ⟨m, hkm, hmlt, heq, hmcap⟩
        rw [if_pos hguard, heq]
        have hmval : m = 0 ∨ valAt s (nthR st L m) < v := by
          right
          rw [heq] at hguard
          exact hguard.2
        rcases ih m hmlt hmcap hmval (by omega) with ⟨j, hmj, hjlt, hjeq, hjcap, hjval, hjstop⟩
        exact ⟨j, by omega, hjlt, hjeq, hjcap, hjval, hjstop⟩
      · rw [if_neg hguard]
        exact ⟨k, Nat.le_refl k, hk, rfl, hcap, hval, hguard⟩

theorem descend_zero (s : CState) (st : Nat) (v : Int) (fuel cur : Nat) :
    descend s st v fuel 0 cur =
      (advanceAt s st v 0 fuel cur, [advanceAt s st v 0 fuel cur]) := rfl

theorem descend_succ (s : CState) (st : Nat) (v : Int) (fuel i cur : Nat) :
    descend s st v fuel (i + 1) cur =
      ((descend s st v fuel i (advanceAt s st v (i + 1) fuel cur)).1,
       (descend s st v fuel i (advanceAt s st v (i + 1) fuel cur)).2 ++
         [advanceAt s st v (i + 1) fuel cur]) := rfl

theorem descend_len (s : CState) (st : Nat) (v : Int) (fuel : Nat) :
    ∀ i cur, (descend s st v fuel i cur).2.length = i + 1
  | 0, _ => rfl
  | i + 1, cur => by
      rw [descend_succ]
      simp [descend_len s st v fuel i]

theorem descend_head (s : CState) (st : Nat) (v : Int) (fuel : Nat) :
    ∀ i cur, (descend s st v fuel i cur).2.getD 0 st = (descend s st v fuel i cur).1
  | 0, _ => rfl
  | i + 1, cur => by
      rw [descend_succ]
      have hlen := descend_len s st v fuel i (advanceAt s st v (i + 1) fuel cur)
      rw [List.getD_append _ _ _ _ (by omega)]
      exact descend_head s st v fuel i _

theorem descend_spec (s : CState) (st : Nat) (L : List Nat) (v : Int)
    (h : WFC s st L) (fuel : Nat) (hfuel : lenR L ≤ fuel) :
    ∀ i k, k < lenR L →
      i < (nodeAt s (nthR st L k)).forward.length →
      (k = 0 ∨ valAt s (nthR st L k) < v) →
      ∃ j, k ≤ j ∧ j < lenR L ∧
        (descend s st v fuel i (nthR st L k)).1 = nthR st L j ∧
        (j = 0 ∨ valAt s (nthR st L j) < v) ∧
        ¬ (fwd s (nthR st L j) 0 ≠ st ∧ valAt s (fwd s (nthR st L j) 0) < v) := by
  intro i
  induction i with
  | zero =>
      intro k hk hcap hval
      rcases advanceAt_spec s st L v 0 h fuel k hk hcap hval (by omega) with
        ⟨j, hkj, hjlt, hjeq, _, hjval, hjstop⟩
      refine ⟨j, hkj, hjlt, ?_, hjval, hjstop⟩
      rw [descend_zero]
      exact hjeq
  | succ i0 ih =>
      intro k hk hcap hval
      rcases advanceAt_spec s st L v (i0 + 1) h fuel k hk hcap hval (by omega) with
        ⟨m, hkm, hmlt, hmeq, hmcap, hmval, _⟩
      rcases ih m hmlt (by omega) hmval with ⟨j, hmj, hjlt, hjeq, hjval, hjstop⟩
      refine ⟨j, by omega, hjlt, ?_, hjval, hjstop⟩
      rw [descend_succ]
      show (descend s st v fuel i0 (advanceAt s st v (i0 + 1) fuel (nthR st L k))).1 = _
      rw [hmeq]
      exact hjeq

theorem descent_split (s : CState) (st : Nat) (L : List Nat) (v : Int)
    (h : WFC s st L) (fuel : Nat) (hfuel : lenR L ≤ fuel)
    (i : Nat) (hi : i < MAXL) :
    ∃ j, j < lenR L ∧
      (descend s st v fuel i st).1 = nthR st L j ∧
      (descend s st v fuel i st).2.getD 0 st = nthR st L j ∧
      (∀ t, 1 ≤ t → t ≤ j → valAt s (nthR st L t) < v) ∧
      (∀ t, j < t → t < lenR L → ¬ valAt s (nthR st L t) < v) := by
  have h0 : (0 : Nat) < lenR L := by simp [lenR]
  have hcap : i < (nodeAt s (nthR st L 0)).forward.length := by
    rw [nthR_zero, wf_st_cap h]
    exact hi
  have hst0 : nthR st L 0 = st := nthR_zero st L
  rcases descend_spec s st L v h fuel hfuel i 0 h0 hcap (Or.inl rfl) with
    ⟨j, _, hjlt, hjeq, hjval, hjstop⟩
  rw [hst0] at hjeq
  refine ⟨j, hjlt, hjeq, by rw [descend_head]; exact hjeq, ?_, ?_⟩
  · intro t ht1 htj
    have hj1 : 1 ≤ j := Nat.le_trans ht1 htj
    have hjv : valAt s (nthR st L j) < v := by
      rcases hjval with h' | h'
      · omega
      · exact h'
    rcases Nat.lt_or_ge t j with htlt | htge
    · have hjm : j - 1 < L.length := by
        have := hjlt
        simp only [lenR] at this
        omega
      have hs := wf_sorted_spec h (j - 1) (List.mem_range.mpr hjm) (t - 1)
        (List.mem_range.mpr (by omega))
      have e1 : nthR st L t = L.getD (t - 1) 0 := by
        have hh := nthR_succ_in st L (t - 1) (by omega)
        have ht : t - 1 + 1 = t := by omega
        rwa [ht] at hh
      have e2 : nthR st L j = L.getD (j - 1) 0 := by
        have hh := nthR_succ_in st L (j - 1) hjm
        have hjj : j - 1 + 1 = j := by omega
        rwa [hjj] at hh
      rw [e1]
      rw [e2] at hjv
      omega
    · have : t = j := by omega
      rw [this]
      exact hjv
  · intro t hjt htlen hv
    have hj1 : j + 1 < lenR L := by omega
    have hne := nthR_ne_st st L (wf_nodup h) (Nat.succ_le_succ (Nat.zero_le j)) hj1
    have hfwd := wf_fwd0 h j hjlt
    have hkey : ¬ valAt s (nthR st L (j + 1)) < v := by
      intro hv1
      exact hjstop ⟨by rw [hfwd]; exact hne, by rw [hfwd]; exact hv1⟩
    rcases Nat.lt_or_ge (j + 1) t with htgt | htle
    · have htm : t - 1 < L.length := by
        simp only [lenR] at htlen
        omega
      have hs := wf_sorted_spec h (t - 1) (List.mem_range.mpr htm) j
        (List.mem_range.mpr (by omega))
      have e1 : nthR st L t = L.getD (t - 1) 0 := by
        have hh := nthR_succ_in st L (t - 1) (by omega)
        have ht : t - 1 + 1 = t := by omega
        rwa [ht] at hh
      have e2 : nthR st L (j + 1) = L.getD j 0 := by
        rw [nthR_succ_in st L j (by simp only [lenR] at hj1; omega)]
      rw [e1] at hv
      rw [e2] at hkey
      omega
    · have : t = j + 1 := by omega
      rw [this] at hv
      exact hkey hv

/-! ### Traversal of a ring/chain that satisfies a cycle step spec -/

theorem followAux_succ (f : Nat → Nat) (st fuel cur : Nat) :
    followAux f st (fuel + 1) cur =
      if cur = st then [] else cur :: followAux f st fuel (f cur) := rfl

theorem followAux_drop (f : Nat → Nat) (st : Nat) (L : List Nat)
    (hne : ∀ x ∈ L, x ≠ st)
    (hstep : ∀ k, k < lenR L → f (nthR st L k) = nthR st L (k + 1)) :
    ∀ d k fuel, L.length = k + d → d < fuel →
      followAux f st fuel (nthR st L (k + 1)) = L.drop k := by
  intro d
  induction d with
  | zero =>
      intro k fuel hk hfuel
      cases fuel with
      | zero => omega
      | succ f2 =>
          rw [nthR_oob st L (k + 1) (by simp only [lenR]; omega), followAux_succ,
            if_pos rfl, List.drop_eq_nil_of_le (by omega)]
  | succ d0 ih =>
      intro k fuel hk hfuel
      cases fuel with
      | zero => omega
      | succ f2 =>
          have hkL : k < L.length := by omega
          have hcur : nthR st L (k + 1) = L.getD k 0 := nthR_succ_in st L k hkL
          have hmem : nthR st L (k + 1) ∈ L := by
            rw [hcur, List.getD_eq_getElem _ _ hkL]
            exact List.getElem_mem _
          rw [followAux_succ, if_neg (hne _ hmem),
            hstep (k + 1) (by simp only [lenR]; omega),
            ih (k + 1) f2 (by omega) (by omega),
            List.drop_eq_getElem_cons hkL, hcur, List.getD_eq_getElem _ _ hkL]

theorem ringIds_of_spec (s : CState) (st : Nat) (L : List Nat)
    (hsent : s.sentinel = some st) (hne : ∀ x ∈ L, x ≠ st)
    (hstep : ∀ k, k < lenR L → nextAt s (nthR st L k) = nthR st L (k + 1))
    (hlen : L.length < s.size + 1) :
    ringIds s = L := by
  have h0 : nextAt s st = nthR st L 1 := by
    have := hstep 0 (by simp [lenR])
    rwa [nthR_zero] at this
  simp only [ringIds, hsent, h0]
  exact followAux_drop _ st L hne hstep L.length 0 (s.size + 1) (by omega) (by omega)

theorem chainIds_of_spec (s : CState) (st : Nat) (L : List Nat)
    (hsent : s.sentinel = some st) (hne : ∀ x ∈ L, x ≠ st)
    (hstep : ∀ k, k < lenR L → fwd s (nthR st L k) 0 = nthR st L (k + 1))
    (hlen : L.length < s.size + 1) :
    chainIds s 0 = L := by
  have h0 : fwd s st 0 = nthR st L 1 := by
    have := hstep 0 (by simp [lenR])
    rwa [nthR_zero] at this
  simp only [chainIds, hsent, h0]
  exact followAux_drop _ st L hne hstep L.length 0 (s.size + 1) (by omega) (by omega)

theorem wf_mem_ne_st {s : CState} {st : Nat} {L : List Nat} (h : WFC s st L) :
    ∀ x ∈ L, x ≠ st := by
  intro x hx hc
  subst hc
  exact (List.nodup_cons.mp (wf_nodup h)).1 hx

theorem wf_ringIds {s : CState} {st : Nat} {L : List Nat} (h : WFC s st L) :
    ringIds s = L := by
  refine ringIds_of_spec s st L (wf_sentinel h) (wf_mem_ne_st h)
    (fun k hk => wf_ringNext h k hk) ?_
  have := wf_len_le h
  simp only [lenR] at this
  omega

theorem wf_chainIds {s : CState} {st : Nat} {L : List Nat} (h : WFC s st L) :
    chainIds s 0 = L := by
  refine chainIds_of_spec s st L (wf_sentinel h) (wf_mem_ne_st h)
    (fun k hk => wf_fwd0 h k hk) ?_
  have := wf_len_le h
  simp only [lenR] at this
  omega

/-! ### find/contains characterization -/

theorem find_split (s : CState) (st : Nat) (L : List Nat) (v : Int)
    (h : WFC s st L) :
    ∃ j, j < lenR L ∧
      (∀ t, 1 ≤ t → t ≤ j → valAt s (nthR st L t) < v) ∧
      (∀ t, j < t → t < lenR L → ¬ valAt s (nthR st L t) < v) ∧
      find_node_in_skip_list s v =
        (if nthR st L (j + 1) ≠ st ∧ valAt s (nthR st L (j + 1)) = v
         then some (nthR st L (j + 1)) else none) := by
  have hst := stOf_eq h
  have hfuel : lenR L ≤ s.size + 1 := by
    have := wf_len_le h
    omega
  rcases descent_split s st L v h (s.size + 1) hfuel s.current_max_level (wf_cml h) with
    ⟨j, hjlt, hd1, _, hlow, hup⟩
  refine ⟨j, hjlt, hlow, hup, ?_⟩
  simp only [find_node_in_skip_list, hst, hd1, wf_fwd0 h j hjlt]

/-- C8: with a well-formed container whose ring order is `L`:
`ringIds` really reads `L`; `contains(v)` is true exactly when some element
equals `v`; when no element equals `v`, `find_node_in_skip_list` finds
nothing and `find(v)` returns `end()`; and when the lookup finds a node it is
the leftmost element equal to `v` in ring order and `find(v)` returns the
cursor to it. -/
theorem claim_C8_find_contains (s : CState) (st : Nat) (L : List Nat) (v : Int)
    (h : WFC s st L) :
    ringIds s = L ∧
    (containsOp s v = true ↔ ∃ x ∈ L, valAt s x = v) ∧
    ((∀ x ∈ L, valAt s x ≠ v) →
      find_node_in_skip_list s v = none ∧ findIter s v = endIter s) ∧
    (∀ x, find_node_in_skip_list s v = some x →
      findIter s v = some x ∧ x ∈ L ∧ valAt s x = v ∧
      ∃ t, t < L.length ∧ L.getD t 0 = x ∧
        ∀ r, r < t → valAt s (L.getD r 0) ≠ v) := by
  rcases find_split s st L v h with ⟨j, hjlt, hlow, hup, hfind⟩
  have hnomatch : (nthR st L (j + 1) ≠ st ∧ valAt s (nthR st L (j + 1)) = v) ∨
      (∀ x ∈ L, valAt s x ≠ v) := by
    by_cases hP : nthR st L (j + 1) ≠ st ∧ valAt s (nthR st L (j + 1)) = v
    · exact Or.inl hP
    · right
      intro x hx hxv
      rcases List.mem_iff_getElem.mp hx with ⟨t, htl, hget⟩
      have hxg : L.getD t 0 = x := by rw [List.getD_eq_getElem _ _ htl, hget]
      have hnth : nthR st L (t + 1) = x := by rw [nthR_succ_in st L t htl, hxg]
      have htlen : t + 1 < lenR L := by simp only [lenR]; omega
      rcases Nat.lt_or_ge j (t + 1) with hgt | hle
      · -- t+1 > j: value there is ≥ v; equal to v only if the (j+1) slot equals v
        have hj1 : j + 1 < lenR L := by omega
        have hne1 := nthR_ne_st st L (wf_nodup h) (Nat.succ_le_succ (Nat.zero_le j)) hj1
        have hge1 : ¬ valAt s (nthR st L (j + 1)) < v := hup (j + 1) (Nat.lt_succ_self j) hj1
        have hnev : valAt s (nthR st L (j + 1)) ≠ v := by
          intro hc
          exact hP ⟨hne1, hc⟩
        -- sorted: val (j+1 slot) ≤ val (t+1 slot)
        have hj0 : j < L.length := by simp only [lenR] at hj1; omega
        have hs := wf_sorted_spec h t (List.mem_range.mpr htl) j
          (List.mem_range.mpr (by omega))
        have e1 : nthR st L (j + 1) = L.getD j 0 := nthR_succ_in st L j hj0
        have e2 : valAt s (L.getD t 0) = v := by rw [hxg]; exact hxv
        rw [e1] at hge1 hnev
        omega
      · have := hlow (t + 1) (Nat.succ_le_succ (Nat.zero_le t)) hle
        rw [hnth] at this
        omega
  refine ⟨wf_ringIds h, ?_, ?_, ?_⟩
  · -- containsOp iff
    constructor
    · intro hc
      rcases hnomatch with hP | hno
      · have hj1 : j + 1 < lenR L := by
          by_contra hge
          exact hP.1 (nthR_oob st L (j + 1) (by omega))
        have hj0 : j < L.length := by simp only [lenR] at hj1; omega
        exact ⟨nthR st L (j + 1), nthR_mem_L st L (j + 1) (Nat.succ_le_succ (Nat.zero_le j)) hj1, hP.2⟩
      · exfalso
        rw [containsOp, hfind] at hc
        by_cases hP : nthR st L (j + 1) ≠ st ∧ valAt s (nthR st L (j + 1)) = v
        · -- hP contradicts hno
          have hj1 : j + 1 < lenR L := by
            by_contra hge
            exact hP.1 (nthR_oob st L (j + 1) (by omega))
          exact hno _ (nthR_mem_L st L (j + 1) (Nat.succ_le_succ (Nat.zero_le j)) hj1) hP.2
        · rw [if_neg hP] at hc
          simp at hc
    · rintro ⟨x, hx, hxv⟩
      rcases hnomatch with hP | hno
      · rw [containsOp, hfind, if_pos hP]
        rfl
      · exact absurd hxv (hno x hx)
  · intro hno
    have hP : ¬ (nthR st L (j + 1) ≠ st ∧ valAt s (nthR st L (j + 1)) = v) := by
      intro hP
      have hj1 : j + 1 < lenR L := by
        by_contra hge
        exact hP.1 (nthR_oob st L (j + 1) (by omega))
      exact hno _ (nthR_mem_L st L (j + 1) (Nat.succ_le_succ (Nat.zero_le j)) hj1) hP.2
    have hfn : find_node_in_skip_list s v = none := by rw [hfind, if_neg hP]
    exact ⟨hfn, by simp [findIter, hfn]⟩
  · intro x hx
    rw [hfind] at hx
    by_cases hP : nthR st L (j + 1) ≠ st ∧ valAt s (nthR st L (j + 1)) = v
    · rw [if_pos hP] at hx
      have hxeq : nthR st L (j + 1) = x := by
        injection hx
      have hj1 : j + 1 < lenR L := by
        by_contra hge
        exact hP.1 (nthR_oob st L (j + 1) (by omega))
      have hj0 : j < L.length := by simp only [lenR] at hj1; omega
      have hmem : x ∈ L := by
        rw [← hxeq]
        exact nthR_mem_L st L (j + 1) (Nat.succ_le_succ (Nat.zero_le j)) hj1
      have hfn : find_node_in_skip_list s v = some x := by
        rw [hfind, if_pos hP, hxeq]
      refine ⟨by simp [findIter, hfn], hmem, by rw [← hxeq]; exact hP.2, j, hj0, ?_, ?_⟩
      · rw [← hxeq, nthR_succ_in st L j hj0]
      · intro r hr
        have := hlow (r + 1) (Nat.succ_le_succ (Nat.zero_le r)) (by omega)
        rw [nthR_succ_in st L r (by omega)] at this
        omega
    · rw [if_neg hP] at hx
      exact absurd hx (by simp)

/-- Witness for C8 at the concrete one-element container holding 5. -/
theorem claim_C8_witness :
    WFC sIns5a 0 [1] ∧
    (ringIds sIns5a = [1] ∧
     (containsOp sIns5a 5 = true ↔ ∃ x ∈ [1], valAt sIns5a x = 5) ∧
     ((∀ x ∈ [1], valAt sIns5a x ≠ 5) →
       find_node_in_skip_list sIns5a 5 = none ∧ findIter sIns5a 5 = endIter sIns5a) ∧
     (∀ x, find_node_in_skip_list sIns5a 5 = some x →
       findIter sIns5a 5 = some x ∧ x ∈ [1] ∧ valAt sIns5a x = 5 ∧
       ∃ t, t < ([1] : List Nat).length ∧ ([1] : List Nat).getD t 0 = x ∧
         ∀ r, r < t → valAt sIns5a (([1] : List Nat).getD r 0) ≠ 5)) :=
  ⟨by decide, claim_C8_find_contains sIns5a 0 [1] 5 (by decide)⟩

/-! ### Transporting WFC along heap extension -/

theorem WFC_congr (s s1 : CState) (st : Nat) (L : List Nat) (h : WFC s st L)
    (hmem : ∀ x, x < s.size → nodeAt s1 x = nodeAt s x)
    (hsent : s1.sentinel = s.sentinel)
    (hsize : s.size ≤ s1.size)
    (hnum : s1.num_elements = s.num_elements)
    (hcml : s1.current_max_level = s.current_max_level) :
    WFC s1 st L := by
  have hsizeR : ∀ k, k < lenR L → nthR st L k < s.size := fun k hk => wf_nthR_size h k hk
  have hmemL : ∀ x ∈ L, x < s.size := fun x hx => (wf_mem h hx).1
  obtain ⟨hw, hrn, hrp, hf0, hfh, hso⟩ := h
  obtain ⟨h1, h2, h3, h4, h5, h6, h7, h8⟩ := hw
  refine ⟨⟨by rw [hsent]; exact h1, by omega, ?_, ?_, by rw [hcml]; exact h5,
    by rw [hnum]; exact h6, h7, ?_⟩, ?_, ?_, ?_, ?_, ?_⟩
  · rw [hmem st h2]; exact h3
  · rw [hmem st h2]; exact h4
  · intro x hx
    obtain ⟨g1, g2, g3, g4, g5⟩ := h8 x hx
    rw [hmem x g1]
    exact ⟨by omega, g2, g3, g4, g5⟩
  · intro k hk
    have hks := hsizeR k (List.mem_range.mp hk)
    show nextAt s1 _ = _
    simp only [nextAt, hmem _ hks]
    exact hrn k hk
  · intro k hk
    have hks : nthR st L ((k + 1) % lenR L) < s.size :=
      hsizeR _ (Nat.mod_lt _ (by simp [lenR]))
    show prevAt s1 _ = _
    simp only [prevAt, hmem _ hks]
    exact hrp k hk
  · intro k hk
    have hks := hsizeR k (List.mem_range.mp hk)
    show fwd s1 _ 0 = _
    simp only [fwd, hmem _ hks]
    exact hf0 k hk
  · intro k hk i hi
    have hks := hsizeR k (List.mem_range.mp hk)
    rw [hmem _ hks] at hi
    rcases hfh k hk i hi with h0 | hst2 | ⟨m, hm, hkm, heq, hcap⟩
    · exact Or.inl h0
    · refine Or.inr (Or.inl ?_)
      simp only [fwd, hmem _ hks]
      exact hst2
    · refine Or.inr (Or.inr ⟨m, hm, hkm, ?_, ?_⟩)
      · simp only [fwd, hmem _ hks]
        exact heq
      · rw [hmem _ (hsizeR m (List.mem_range.mp hm))]
        exact hcap
  · intro k hk t ht
    have hk1 : L.getD k 0 ∈ L := by
      rw [List.getD_eq_getElem _ _ (List.mem_range.mp hk)]
      exact List.getElem_mem _
    have ht1 : L.getD t 0 ∈ L := by
      have htk : t < L.length :=
        Nat.lt_of_lt_of_le (List.mem_range.mp ht) (List.mem_range.mp hk)
      rw [List.getD_eq_getElem _ _ htk]
      exact List.getElem_mem _
    show valAt s1 _ ≤ valAt s1 _
    simp only [valAt, hmem _ (hmemL _ ht1), hmem _ (hmemL _ hk1)]
    exact hso k hk t ht

/-! ### Reads through allocation, ring splice and index splice -/

theorem nodeAt_alloc (s : CState) (v : Int) (lvl : Nat) (x : Nat) (hx : x ≠ s.size) :
    nodeAt (allocate_node s v lvl).1 x = nodeAt s x := by
  simp only [allocate_node, nodeAt]
  rw [if_neg hx]

theorem nodeAt_alloc_new (s : CState) (v : Int) (lvl : Nat) :
    nodeAt (allocate_node s v lvl).1 s.size =
      { value := v, prev := 0, next := 0, forward := List.replicate (lvl + 1) 0,
        level := lvl, is_sentinel := false, alive := true } := by
  simp [allocate_node, nodeAt]

theorem alloc_size (s : CState) (v : Int) (lvl : Nat) :
    (allocate_node s v lvl).1.size = s.size + 1 := rfl

theorem alloc_snd (s : CState) (v : Int) (lvl : Nat) :
    (allocate_node s v lvl).2 = s.size := rfl

theorem alloc_sentinel (s : CState) (v : Int) (lvl : Nat) :
    (allocate_node s v lvl).1.sentinel = s.sentinel := rfl

theorem alloc_cml (s : CState) (v : Int) (lvl : Nat) :
    (allocate_node s v lvl).1.current_max_level = s.current_max_level := rfl

theorem WFC_alloc {s : CState} {st : Nat} {L : List Nat} (h : WFC s st L)
    (v : Int) (lvl : Nat) : WFC (allocate_node s v lvl).1 st L :=
  WFC_congr s _ st L h (fun x hx => nodeAt_alloc s v lvl x (by omega)) rfl
    (by rw [alloc_size]; omega) rfl rfl

theorem nextAt_bump (s : CState) (n z : Nat) :
    nextAt { s with num_elements := n } z = nextAt s z := rfl

theorem prevAt_bump (s : CState) (n z : Nat) :
    prevAt { s with num_elements := n } z = prevAt s z := rfl

theorem fwd_bump (s : CState) (n z i : Nat) :
    fwd { s with num_elements := n } z i = fwd s z i := rfl

theorem valAt_bump (s : CState) (n z : Nat) :
    valAt { s with num_elements := n } z = valAt s z := rfl

theorem nextAt_cmlset (s : CState) (c z : Nat) :
    nextAt { s with current_max_level := c } z = nextAt s z := rfl

theorem prevAt_cmlset (s : CState) (c z : Nat) :
    prevAt { s with current_max_level := c } z = prevAt s z := rfl

theorem fwd_cmlset (s : CState) (c z i : Nat) :
    fwd { s with current_max_level := c } z i = fwd s z i := rfl

theorem valAt_cmlset (s : CState) (c z : Nat) :
    valAt { s with current_max_level := c } z = valAt s z := rfl

theorem dll_nextAt (s : CState) (nid pos z : Nat) :
    nextAt (insert_dll_node_before s nid pos) z =
      if z = prevAt s pos then nid else if z = nid then pos else nextAt s z := by
  simp only [insert_dll_node_before, nextAt_bump, nextAt_setPrevF, nextAt_setNextF]

theorem dll_prevAt (s : CState) (nid pos z : Nat) :
    prevAt (insert_dll_node_before s nid pos) z =
      if z = pos then nid else if z = nid then prevAt s pos else prevAt s z := by
  simp only [insert_dll_node_before, prevAt_bump, prevAt_setPrevF, prevAt_setNextF]

theorem dll_fwd (s : CState) (nid pos z i : Nat) :
    fwd (insert_dll_node_before s nid pos) z i = fwd s z i := by
  simp only [insert_dll_node_before, fwd_bump, fwd_setPrevF, fwd_setNextF]

theorem dll_valAt (s : CState) (nid pos z : Nat) :
    valAt (insert_dll_node_before s nid pos) z = valAt s z := by
  simp only [insert_dll_node_before, valAt_bump, valAt_setPrevF, valAt_setNextF]

theorem dll_forward (s : CState) (nid pos z : Nat) :
    (nodeAt (insert_dll_node_before s nid pos) z).forward = (nodeAt s z).forward := by
  simp only [insert_dll_node_before]
  show (nodeAt (setPrevF (setNextF (setPrevF (setNextF s nid pos) nid
    (prevAt s pos)) (prevAt s pos) nid) pos nid) z).forward = _
  rw [forward_setPrevF, forward_setNextF, forward_setPrevF, forward_setNextF]

theorem dll_sentinel (s : CState) (nid pos : Nat) :
    (insert_dll_node_before s nid pos).sentinel = s.sentinel := rfl

theorem dll_size (s : CState) (nid pos : Nat) :
    (insert_dll_node_before s nid pos).size = s.size := rfl

theorem spliceLevels_nextAt (nid st : Nat) (u : List Nat) :
    ∀ c i s z, nextAt (spliceLevels s nid st u c i) z = nextAt s z
  | 0, _, _, _ => rfl
  | c + 1, i, s, z => by
      show nextAt (spliceLevels _ nid st u c (i + 1)) z = _
      rw [spliceLevels_nextAt nid st u c (i + 1) _ z, nextAt_setFwdF, nextAt_setFwdF]

theorem spliceLevels_prevAt (nid st : Nat) (u : List Nat) :
    ∀ c i s z, prevAt (spliceLevels s nid st u c i) z = prevAt s z
  | 0, _, _, _ => rfl
  | c + 1, i, s, z => by
      show prevAt (spliceLevels _ nid st u c (i + 1)) z = _
      rw [spliceLevels_prevAt nid st u c (i + 1) _ z, prevAt_setFwdF, prevAt_setFwdF]

theorem spliceLevels_valAt (nid st : Nat) (u : List Nat) :
    ∀ c i s z, valAt (spliceLevels s nid st u c i) z = valAt s z
  | 0, _, _, _ => rfl
  | c + 1, i, s, z => by
      show valAt (spliceLevels _ nid st u c (i + 1)) z = _
      rw [spliceLevels_valAt nid st u c (i + 1) _ z, valAt_setFwdF, valAt_setFwdF]

theorem spliceLevels_sentinel (nid st : Nat) (u : List Nat) :
    ∀ c i s, (spliceLevels s nid st u c i).sentinel = s.sentinel
  | 0, _, _ => rfl
  | c + 1, i, s => by
      show (spliceLevels _ nid st u c (i + 1)).sentinel = _
      rw [spliceLevels_sentinel nid st u c (i + 1) _]
      rfl

theorem spliceLevels_size (nid st : Nat) (u : List Nat) :
    ∀ c i s, (spliceLevels s nid st u c i).size = s.size
  | 0, _, _ => rfl
  | c + 1, i, s => by
      show (spliceLevels _ nid st u c (i + 1)).size = _
      rw [spliceLevels_size nid st u c (i + 1) _]
      rfl

theorem spliceLevels_fwd_low (nid st : Nat) (u : List Nat) :
    ∀ c i s z m, m < i → fwd (spliceLevels s nid st u c i) z m = fwd s z m
  | 0, _, _, _, _, _ => rfl
  | c + 1, i, s, z, m, hm => by
      show fwd (spliceLevels _ nid st u c (i + 1)) z m = _
      rw [spliceLevels_fwd_low nid st u c (i + 1) _ z m (by omega),
        fwd_setFwdF_ne_level _ _ _ _ _ _ (by omega),
        fwd_setFwdF_ne_level _ _ _ _ _ _ (by omega)]

theorem spliceLevels_fwd0 (s : CState) (nid st : Nat) (u : List Nat) (lvl z : Nat)
    (hnid : 0 < (nodeAt s nid).forward.length)
    (hu0 : 0 < (nodeAt s (u.getD 0 st)).forward.length) :
    fwd (spliceLevels s nid st u (lvl + 1) 0) z 0 =
      if z = u.getD 0 st then nid
      else if z = nid then fwd s (u.getD 0 st) 0
      else fwd s z 0 := by
  show fwd (spliceLevels (setFwdF (setFwdF s nid 0 (fwd s (u.getD 0 st) 0))
    (u.getD 0 st) 0 nid) nid st u lvl 1) z 0 = _
  rw [spliceLevels_fwd_low nid st u lvl 1 _ z 0 (by omega)]
  by_cases hz : z = u.getD 0 st
  · subst hz
    rw [if_pos rfl, fwd_setFwdF_self]
    rw [forward_len_setFwdF]
    exact hu0
  · rw [if_neg hz, fwd_setFwdF_ne_node _ _ _ _ _ _ hz]
    by_cases hz2 : z = nid
    · subst hz2
      rw [if_pos rfl, fwd_setFwdF_self _ _ _ _ hnid]
    · rw [if_neg hz2, fwd_setFwdF_ne_node _ _ _ _ _ _ hz2]

/-! ### Positions in the spliced ring list -/

theorem length_splice (nid : Nat) (L : List Nat) (j : Nat) (hj : j ≤ L.length) :
    (L.take j ++ nid :: L.drop j).length = L.length + 1 := by
  simp [List.length_take, List.length_drop]
  omega

theorem nthR_splice_le (st nid : Nat) (L : List Nat) (j k : Nat)
    (hj : j ≤ L.length) (hk : k ≤ j) :
    nthR st (L.take j ++ nid :: L.drop j) k = nthR st L k := by
  cases k with
  | zero => rfl
  | succ t =>
      have htj : t < j := by omega
      have htL : t < L.length := by omega
      have hlt : t < (L.take j).length := by
        rw [List.length_take]
        omega
      rw [nthR_succ, nthR_succ, List.getD_append _ _ _ _ hlt,
        List.getD_eq_getElem _ _ hlt, List.getD_eq_getElem _ _ htL]
      exact List.getElem_take L ..

theorem nthR_splice_mid (st nid : Nat) (L : List Nat) (j : Nat) (hj : j ≤ L.length) :
    nthR st (L.take j ++ nid :: L.drop j) (j + 1) = nid := by
  have hlen : (L.take j).length = j := by
    rw [List.length_take]
    omega
  rw [nthR_succ, List.getD_append_right _ _ _ _ (by omega), hlen]
  simp

theorem nthR_splice_gt (st nid : Nat) (L : List Nat) (j k : Nat)
    (hj : j ≤ L.length) (hk : j + 2 ≤ k) :
    nthR st (L.take j ++ nid :: L.drop j) k = nthR st L (k - 1) := by
  have hlen : (L.take j).length = j := by
    rw [List.length_take]
    omega
  have hk1 : k - 1 - 1 + 1 = k - 1 := by omega
  have e1 : nthR st (L.take j ++ nid :: L.drop j) k =
      (L.take j ++ nid :: L.drop j).getD (k - 1) st := by
    have hkk : k - 1 + 1 = k := by omega
    have := nthR_succ st (L.take j ++ nid :: L.drop j) (k - 1)
    rwa [hkk] at this
  have e2 : nthR st L (k - 1) = L.getD (k - 1 - 1) st := by
    have := nthR_succ st L (k - 1 - 1)
    rwa [hk1] at this
  rw [e1, e2, List.getD_append_right _ _ _ _ (by omega), hlen]
  have hge : k - 1 - j = (k - 1 - j - 1) + 1 := by omega
  rw [hge]
  show (L.drop j).getD (k - 1 - j - 1) st = _
  rw [getD_drop]
  have : j + (k - 1 - j - 1) = k - 1 - 1 := by omega
  rw [this]

/-! ### A single node spliced after position j preserves the cycle spec -/

theorem cycle_spec_update (st nid j : Nat) (L : List Nat) (g g' : Nat → Nat)
    (hnd : (st :: L).Nodup)
    (hnid : ∀ k, k < lenR L → nthR st L k ≠ nid)
    (hj : j < lenR L)
    (hg : ∀ k, k < lenR L → g (nthR st L k) = nthR st L (k + 1))
    (hg' : ∀ z, g' z = if z = nthR st L j then nid
                       else if z = nid then nthR st L (j + 1) else g z) :
    ∀ k, k < lenR (L.take j ++ nid :: L.drop j) →
      g' (nthR st (L.take j ++ nid :: L.drop j) k) =
      nthR st (L.take j ++ nid :: L.drop j) (k + 1) := by
  have hjle : j ≤ L.length := by
    simp only [lenR] at hj
    omega
  have hlen' : lenR (L.take j ++ nid :: L.drop j) = L.length + 2 := by
    simp only [lenR, length_splice nid L j hjle]
  intro k hk
  rw [hlen'] at hk
  by_cases hkj : k < j
  · rw [nthR_splice_le st nid L j k hjle (by omega),
      nthR_splice_le st nid L j (k + 1) hjle (by omega), hg' _]
    have hklt : k < lenR L := by omega
    have hne1 : nthR st L k ≠ nthR st L j := by
      intro hc
      have := nthR_inj st L hnd hklt hj hc
      omega
    rw [if_neg hne1, if_neg (hnid k hklt)]
    exact hg k hklt
  · by_cases hkj2 : k = j
    · subst hkj2
      rw [nthR_splice_le st nid L k k hjle (Nat.le_refl k),
        nthR_splice_mid st nid L k hjle, hg' _, if_pos rfl]
    · by_cases hkj3 : k = j + 1
      · subst hkj3
        rw [nthR_splice_mid st nid L j hjle, hg' _]
        have hne1 : nid ≠ nthR st L j := fun hc => (hnid j hj) hc.symm
        rw [if_neg hne1, if_pos rfl,
          nthR_splice_gt st nid L j (j + 2) hjle (Nat.le_refl _)]
        rfl
      · have hge : j + 2 ≤ k := by omega
        rw [nthR_splice_gt st nid L j k hjle hge,
          nthR_splice_gt st nid L j (k + 1) hjle (by omega), hg' _]
        have hkm : k - 1 < lenR L := by
          simp only [lenR]
          omega
        have hne1 : nthR st L (k - 1) ≠ nthR st L j := by
          intro hc
          have := nthR_inj st L hnd hkm hj hc
          omega
        rw [if_neg hne1, if_neg (hnid (k - 1) hkm)]
        have := hg (k - 1) hkm
        have hkk : k - 1 + 1 = k := by omega
        rw [hkk] at this
        rw [this]
        have hkk2 : k + 1 - 1 = k := by omega
        rw [hkk2]

end ListContainer

namespace ListContainer

theorem insertCore_unfold (s : CState) (v : Int) (lvl : Nat) :
    insertCore s v lvl =
      (insExpr (allocate_node s v lvl).1 (stOf s) v lvl s.size, s.size) := rfl

theorem wf_cap_pos {s : CState} {st : Nat} {L : List Nat} (h : WFC s st L)
    (k : Nat) (hk : k < lenR L) :
    0 < (nodeAt s (nthR st L k)).forward.length := by
  cases k with
  | zero =>
      rw [nthR_zero, wf_st_cap h]
      simp [MAXL]
  | succ t =>
      have := (wf_mem h (nthR_mem_L st L (t + 1) (Nat.succ_le_succ (Nat.zero_le t)) hk)).2.2.2.1
      omega

theorem nodeAt_cmlset (s : CState) (c z : Nat) :
    nodeAt { s with current_max_level := c } z = nodeAt s z := rfl

theorem sentinel_cmlset (s : CState) (c : Nat) :
    ({ s with current_max_level := c } : CState).sentinel = s.sentinel := rfl

theorem size_cmlset (s : CState) (c : Nat) :
    ({ s with current_max_level := c } : CState).size = s.size := rfl

/-! ### The full effect of insert on ring order and level-0 chain -/

theorem insExpr_effect (s1 : CState) (st : Nat) (L : List Nat) (v : Int) (lvl nid : Nat)
    (hWF1 : WFC s1 st L)
    (hfresh : ∀ k, k < lenR L → nthR st L k ≠ nid)
    (hnode : nodeAt s1 nid = { value := v, prev := 0, next := 0,
                               forward := List.replicate (lvl + 1) 0, level := lvl,
                               is_sentinel := false, alive := true }) :
    ∃ j, j ≤ L.length ∧
      ringIds (insExpr s1 st v lvl nid) = L.take j ++ nid :: L.drop j ∧
      chainIds (insExpr s1 st v lvl nid) 0 = L.take j ++ nid :: L.drop j ∧
      (∀ z, valAt (insExpr s1 st v lvl nid) z = valAt s1 z) ∧
      valAt s1 nid = v ∧
      (∀ t, t < j → valAt s1 (L.getD t 0) < v) ∧
      (∀ t, j ≤ t → t < L.length → v ≤ valAt s1 (L.getD t 0)) := by
  have hfuel : lenR L ≤ s1.size + 1 := by
    have := wf_len_le hWF1
    omega
  obtain ⟨j, hjlt, hd1, hdh, hlow, hup⟩ :=
    descent_split s1 st L v hWF1 (s1.size + 1) hfuel s1.current_max_level (wf_cml hWF1)
  have hjle : j ≤ L.length := by
    simp only [lenR] at hjlt
    omega
  set D := descend s1 st v (s1.size + 1) s1.current_max_level st with hD
  set P := nextAt s1 D.1 with hP
  set S2 := insert_dll_node_before s1 nid P with hS2
  set C2 := if lvl > S2.current_max_level then lvl else S2.current_max_level with hC2
  set S3 : CState := { S2 with current_max_level := C2 } with hS3
  have hE : insExpr s1 st v lvl nid = spliceLevels S3 nid st D.2 (lvl + 1) 0 := rfl
  have hP_eq : P = nthR st L (j + 1) := by
    rw [hP, hd1]
    exact wf_ringNext hWF1 j hjlt
  have hprevP : prevAt s1 P = nthR st L j := by
    rw [hP_eq]
    exact wf_ringPrev hWF1 j hjlt
  have hstnid : st ≠ nid := by
    have := hfresh 0 (by simp [lenR])
    rwa [nthR_zero] at this
  have hnextE : ∀ z, nextAt (spliceLevels S3 nid st D.2 (lvl + 1) 0) z =
      if z = nthR st L j then nid
      else if z = nid then nthR st L (j + 1) else nextAt s1 z := by
    intro z
    rw [spliceLevels_nextAt, hS3, nextAt_cmlset, hS2, dll_nextAt, hprevP, hP_eq]
  have hcap_nid : 0 < (nodeAt S3 nid).forward.length := by
    rw [hS3, nodeAt_cmlset, hS2]
    have hf := dll_forward s1 nid P nid
    rw [hf, hnode]
    simp
  have hcap_u0 : 0 < (nodeAt S3 (D.2.getD 0 st)).forward.length := by
    rw [hdh, hS3, nodeAt_cmlset, hS2]
    have hf := dll_forward s1 nid P (nthR st L j)
    rw [hf]
    exact wf_cap_pos hWF1 j hjlt
  have hfwdE : ∀ z, fwd (spliceLevels S3 nid st D.2 (lvl + 1) 0) z 0 =
      if z = nthR st L j then nid
      else if z = nid then nthR st L (j + 1) else fwd s1 z 0 := by
    intro z
    rw [spliceLevels_fwd0 S3 nid st D.2 lvl z hcap_nid hcap_u0, hdh]
    simp only [hS3, fwd_cmlset, hS2, dll_fwd, wf_fwd0 hWF1 j hjlt]
  have hringE := cycle_spec_update st nid j L (nextAt s1)
    (nextAt (spliceLevels S3 nid st D.2 (lvl + 1) 0)) (wf_nodup hWF1) hfresh hjlt
    (fun k hk => wf_ringNext hWF1 k hk) hnextE
  have hchainE := cycle_spec_update st nid j L (fun z => fwd s1 z 0)
    (fun z => fwd (spliceLevels S3 nid st D.2 (lvl + 1) 0) z 0) (wf_nodup hWF1) hfresh hjlt
    (fun k hk => wf_fwd0 hWF1 k hk) hfwdE
  have hEsent : (spliceLevels S3 nid st D.2 (lvl + 1) 0).sentinel = some st := by
    rw [spliceLevels_sentinel, hS3, sentinel_cmlset, hS2, dll_sentinel]
    exact wf_sentinel hWF1
  have hEsize : (spliceLevels S3 nid st D.2 (lvl + 1) 0).size = s1.size := by
    rw [spliceLevels_size, hS3, size_cmlset, hS2, dll_size]
  have hne' : ∀ x ∈ L.take j ++ nid :: L.drop j, x ≠ st := by
    intro x hx
    rcases List.mem_append.mp hx with hx1 | hx2
    · exact wf_mem_ne_st hWF1 x (List.mem_of_mem_take hx1)
    · rcases List.mem_cons.mp hx2 with rfl | hx3
      · exact fun hc => hstnid hc.symm
      · exact wf_mem_ne_st hWF1 x (List.mem_of_mem_drop hx3)
  have hlenL' : (L.take j ++ nid :: L.drop j).length = L.length + 1 :=
    length_splice nid L j hjle
  have hLlen : L.length + 1 ≤ s1.size := by
    have := wf_len_le hWF1
    simpa [lenR] using this
  have hring : ringIds (spliceLevels S3 nid st D.2 (lvl + 1) 0) =
      L.take j ++ nid :: L.drop j := by
    refine ringIds_of_spec _ st _ hEsent hne' hringE ?_
    rw [hEsize, hlenL']
    omega
  have hchain : chainIds (spliceLevels S3 nid st D.2 (lvl + 1) 0) 0 =
      L.take j ++ nid :: L.drop j := by
    refine chainIds_of_spec _ st _ hEsent hne' hchainE ?_
    rw [hEsize, hlenL']
    omega
  have hvalE : ∀ z, valAt (spliceLevels S3 nid st D.2 (lvl + 1) 0) z = valAt s1 z := by
    intro z
    rw [spliceLevels_valAt, hS3, valAt_cmlset, hS2, dll_valAt]
  have hvnid : valAt s1 nid = v := by
    rw [valAt, hnode]
  refine ⟨j, hjle, by rw [hE]; exact hring, by rw [hE]; exact hchain,
    by rw [hE]; exact hvalE, hvnid, ?_, ?_⟩
  · intro t ht
    have := hlow (t + 1) (Nat.succ_le_succ (Nat.zero_le t)) (by omega)
    rwa [nthR_succ_in st L t (by omega)] at this
  · intro t htj htl
    have := hup (t + 1) (by omega) (by simp only [lenR]; omega)
    rw [nthR_succ_in st L t htl] at this
    omega

theorem mem_drop_of_getElem (l : List Nat) (j t : Nat) (hj : j ≤ t)
    (ht : t < l.length) : l[t] ∈ l.drop j := by
  have h2 : t - j < (l.drop j).length := by
    simp [List.length_drop]
    omega
  have h3 : (l.drop j)[t - j] = l[t] := by
    rw [List.getElem_drop]
    congr 1
    omega
  exact h3 ▸ List.getElem_mem h2

theorem insert_effect (s : CState) (st : Nat) (L : List Nat) (v : Int) (lvl : Nat)
    (h : WFC s st L) :
    ∃ j, j ≤ L.length ∧
      (insertCore s v lvl).2 = s.size ∧
      ringIds (insertCore s v lvl).1 = L.take j ++ s.size :: L.drop j ∧
      chainIds (insertCore s v lvl).1 0 = L.take j ++ s.size :: L.drop j ∧
      valAt (insertCore s v lvl).1 s.size = v ∧
      ringVals (insertCore s v lvl).1 = (ringVals s).take j ++ v :: (ringVals s).drop j ∧
      (∀ t, t < j → valAt s (L.getD t 0) < v) ∧
      (∀ t, j ≤ t → t < L.length → v ≤ valAt s (L.getD t 0)) := by
  have hWF1 : WFC (allocate_node s v lvl).1 st L := WFC_alloc h v lvl
  have hfresh : ∀ k, k < lenR L → nthR st L k ≠ s.size := by
    intro k hk hc
    have := wf_nthR_size h k hk
    omega
  obtain ⟨j, hjle, hring, hchain, hval, hvnid, hlow, hup⟩ :=
    insExpr_effect (allocate_node s v lvl).1 st L v lvl s.size hWF1 hfresh
      (nodeAt_alloc_new s v lvl)
  have hval_s : ∀ x, x < s.size → valAt (allocate_node s v lvl).1 x = valAt s x := by
    intro x hx
    simp only [valAt, nodeAt_alloc s v lvl x (by omega)]
  have hmemL : ∀ x ∈ L, x < s.size := fun x hx => (wf_mem h hx).1
  have hgetD_lt : ∀ t, t < L.length → L.getD t 0 < s.size := by
    intro t ht
    refine hmemL _ ?_
    rw [List.getD_eq_getElem _ _ ht]
    exact List.getElem_mem ht
  have hlowS : ∀ t, t < j → valAt s (L.getD t 0) < v := by
    intro t ht
    have h2 := hlow t ht
    rcases Nat.lt_or_ge t L.length with htl | htl
    · rwa [hval_s _ (hgetD_lt t htl)] at h2
    · rwa [hval_s _ (hgetD_lt t (by omega))] at h2
  have hupS : ∀ t, j ≤ t → t < L.length → v ≤ valAt s (L.getD t 0) := by
    intro t htj htl
    have h2 := hup t htj htl
    rwa [hval_s _ (hgetD_lt t htl)] at h2
  refine ⟨j, hjle, ?_, ?_, ?_, ?_, ?_, hlowS, hupS⟩
  · rw [insertCore_unfold]
  · rw [insertCore_unfold, stOf_eq h]
    exact hring
  · rw [insertCore_unfold, stOf_eq h]
    exact hchain
  · rw [insertCore_unfold, stOf_eq h]
    show valAt (insExpr (allocate_node s v lvl).1 st v lvl s.size) s.size = v
    rw [hval s.size]
    exact hvnid
  · rw [insertCore_unfold, stOf_eq h]
    show ringVals (insExpr (allocate_node s v lvl).1 st v lvl s.size) =
      (ringVals s).take j ++ v :: (ringVals s).drop j
    simp only [ringVals, wf_ringIds h]
    rw [hring, List.map_append, List.map_cons]
    have hmapAll : L.map (valAt (insExpr (allocate_node s v lvl).1 st v lvl s.size)) =
        L.map (valAt s) := by
      refine List.map_eq_map_iff.mpr ?_
      intro x hx
      rw [hval x, hval_s x (hmemL x hx)]
    rw [List.map_take, List.map_drop, hmapAll, hval s.size, hvnid]

/-! ### Claim C3, amended (status: corrected) -/

/-- C3 amended: on a well-formed container, inserting `v` places the newly
created node immediately after the elements with value `< v` and before all
elements with value `≥ v` — in particular before, not after, every existing
equal-valued element — in both ring order and the level-0 index chain. -/
theorem claim_C3_amended (s : CState) (st : Nat) (L : List Nat) (v : Int)
    (lvl : Nat) (h : WFC s st L) :
    ∃ j, j ≤ L.length ∧
      ringIds s = L ∧
      ringIds (insertCore s v lvl).1 = L.take j ++ (insertCore s v lvl).2 :: L.drop j ∧
      chainIds (insertCore s v lvl).1 0 = L.take j ++ (insertCore s v lvl).2 :: L.drop j ∧
      valAt (insertCore s v lvl).1 (insertCore s v lvl).2 = v ∧
      (∀ t, t < j → valAt s (L.getD t 0) < v) ∧
      (∀ t, j ≤ t → t < L.length → v ≤ valAt s (L.getD t 0)) ∧
      (∀ x, x ∈ L → valAt s x = v → x ∈ L.drop j) := by
  obtain ⟨j, hjle, h2, hring, hchain, hvnew, _, hlow, hup⟩ := insert_effect s st L v lvl h
  refine ⟨j, hjle, wf_ringIds h, by rw [h2]; exact hring, by rw [h2]; exact hchain,
    by rw [h2]; exact hvnew, hlow, hup, ?_⟩
  intro x hx hxv
  rcases List.mem_iff_getElem.mp hx with ⟨t, htl, hget⟩
  have hxd : L.getD t 0 = x := by
    rw [List.getD_eq_getElem _ _ htl, hget]
  by_cases ht : t < j
  · exfalso
    have := hlow t ht
    rw [hxd, hxv] at this
    omega
  · have := mem_drop_of_getElem L j t (by omega) htl
    rwa [hget] at this

/-- Witness for C3 amended at the one-element container holding 5, inserting
another 5 at level 0. -/
theorem claim_C3_amended_witness :
    WFC sIns5a 0 [1] ∧
    (∃ j, j ≤ ([1] : List Nat).length ∧
      ringIds sIns5a = [1] ∧
      ringIds (insertCore sIns5a 5 0).1 =
        ([1] : List Nat).take j ++ (insertCore sIns5a 5 0).2 :: ([1] : List Nat).drop j ∧
      chainIds (insertCore sIns5a 5 0).1 0 =
        ([1] : List Nat).take j ++ (insertCore sIns5a 5 0).2 :: ([1] : List Nat).drop j ∧
      valAt (insertCore sIns5a 5 0).1 (insertCore sIns5a 5 0).2 = 5 ∧
      (∀ t, t < j → valAt sIns5a (([1] : List Nat).getD t 0) < 5) ∧
      (∀ t, j ≤ t → t < ([1] : List Nat).length →
        5 ≤ valAt sIns5a (([1] : List Nat).getD t 0)) ∧
      (∀ x, x ∈ ([1] : List Nat) → valAt sIns5a x = 5 → x ∈ ([1] : List Nat).drop j)) :=
  ⟨by decide, claim_C3_amended sIns5a 0 [1] 5 0 (by decide)⟩

/-! ### Claim C9 (status: confirmed) -/

/-- C9: `push_front(v)` and `push_back(v)` both just call `insert(end(), v)`,
and `insert`'s position hint is `[[maybe_unused]]` — never read — so for the
same drawn level all three calls produce the identical container state, and
on a well-formed container the element lands at the sorted position
determined solely by its value. -/
theorem claim_C9_hint_equivalence (s : CState) (v : Int) (lvl : Nat)
    (p q : Option Nat) :
    push_front s v lvl = (insertAt s p v lvl).1 ∧
    push_back s v lvl = (insertAt s p v lvl).1 ∧
    insertAt s p v lvl = insertAt s q v lvl ∧
    (∀ st L, WFC s st L →
      ∃ j, j ≤ L.length ∧
        ringVals (insertAt s p v lvl).1 =
          (ringVals s).take j ++ v :: (ringVals s).drop j ∧
        (∀ t, t < j → valAt s (L.getD t 0) < v) ∧
        (∀ t, j ≤ t → t < L.length → v ≤ valAt s (L.getD t 0))) := by
  refine ⟨rfl, rfl, rfl, ?_⟩
  intro st L h
  obtain ⟨j, hjle, _, _, _, _, hrv, hlow, hup⟩ := insert_effect s st L v lvl h
  exact ⟨j, hjle, hrv, hlow, hup⟩

/-- Witness for C9 at the one-element container holding 5, inserting 7. -/
theorem claim_C9_witness :
    WFC sIns5a 0 [1] ∧
    (∃ j, j ≤ ([1] : List Nat).length ∧
      ringVals (insertAt sIns5a none 7 0).1 =
        (ringVals sIns5a).take j ++ 7 :: (ringVals sIns5a).drop j ∧
      (∀ t, t < j → valAt sIns5a (([1] : List Nat).getD t 0) < 7) ∧
      (∀ t, j ≤ t → t < ([1] : List Nat).length →
        7 ≤ valAt sIns5a (([1] : List Nat).getD t 0))) :=
  ⟨by decide, (claim_C9_hint_equivalence sIns5a 7 0 none none).2.2.2 0 [1] (by decide)⟩

end ListContainer
